import Mathlib

/-!
# Verification of the NET_SIM topology pipeline

Shallow embedding of the Python modules `topology_builder.py`, `validator.py`,
`bandwidth_checker.py`, `analyzer.py`, `simulator.py`, `config_parser.py` and
`utils.py` of the NET_SIM repository, together with theorems settling the
specification claims about them.

Modelling conventions:
* Python dicts that the code iterates are modelled as insertion-ordered
  association lists with unique keys (`alookup` is `dict.get`).
* A `networkx.Graph` is modelled by its node list (with the `parsed` node
  attribute) and its edge list (unordered edges stored with the orientation
  and position of first insertion, as in the adjacency structure of networkx).
* Python floats are modelled as exact rationals; `round(x, 2)` is modelled as
  round-half-to-even on hundredths (`py_round2`).
* Log output is modelled structurally: each distinct log/issue f-string of the
  source becomes a constructor carrying exactly the interpolated data.
-/

namespace NetSim

/-! ## Python string primitives -/

/-- Characters stripped by Python `str.strip()`. -/
def isPySpace (c : Char) : Bool :=
  c = ' ' || c = '\t' || c = '\n' || c = '\x0d' || c = '\x0b' || c = '\x0c'

/-- Python `str.strip()`. -/
def pyStrip (s : String) : String :=
  String.mk (((s.data.dropWhile isPySpace).reverse.dropWhile isPySpace).reverse)

/-- Python `str.lower()` (ASCII case mapping, which covers the identifiers and
hostnames this program manipulates). -/
def pyLower (s : String) : String :=
  String.mk (s.data.map Char.toLower)

/-- Substring containment on character lists: `needle` occurs inside `hay`. -/
def listInfix (needle hay : List Char) : Bool :=
  if needle.isPrefixOf hay then true
  else
    match hay with
    | [] => false
    | _ :: t => listInfix needle t

/-- Python `needle in hay` for strings. -/
def pyIn (needle hay : String) : Bool :=
  listInfix needle.data hay.data

/-- `l.split(c)` on characters, all occurrences (Python `str.split` with a
one-character separator, which is the only kind this program uses). -/
def splitChar (c : Char) : List Char → List (List Char)
  | [] => [[]]
  | x :: xs =>
      if x = c then [] :: splitChar c xs
      else
        match splitChar c xs with
        | [] => [[x]]
        | h :: t => (x :: h) :: t

/-- Python `s.split(c)` for a one-character separator. -/
def pySplit (c : Char) (s : String) : List String :=
  (splitChar c s.data).map String.mk

/-- Python `s.split(c, 1)`: the part before the first occurrence and the
rest. -/
def breakChar (c : Char) : List Char → List Char × List Char
  | [] => ([], [])
  | x :: xs =>
      if x = c then ([], xs)
      else
        let r := breakChar c xs
        (x :: r.1, r.2)

def pySplitOnce (s : String) (c : Char) : String × String :=
  let r := breakChar c s.data
  (String.mk r.1, String.mk r.2)

/-- Python `s.startswith(p)`. -/
def pyStartsWith (p s : String) : Bool :=
  p.data.isPrefixOf s.data

/-- Decimal value of a digit string (Python `int(s)` on digits). -/
def digitsVal (l : List Char) : Nat :=
  l.foldl (fun acc c => acc * 10 + (c.toNat - 48)) 0

/-! ## Ordered association lists (Python `dict`) -/

/-- `dict.get(k)`: first binding of `k`. -/
def alookup {α : Type} : List (String × α) → String → Option α
  | [], _ => none
  | (k, v) :: rest, x => if k = x then some v else alookup rest x

/-- `d[k] = v` on a Python dict: replace the value in place if the key is
present (keeping its position), otherwise append the binding. -/
def aset {α : Type} (d : List (String × α)) (k : String) (v : α) : List (String × α) :=
  if (alookup d k).isSome then
    d.map fun kv => if kv.1 = k then (k, v) else kv
  else
    d ++ [(k, v)]

/-- Rebuild a dict from a list of bindings (Python dict comprehension:
first-occurrence position, last-occurrence value on duplicate keys). -/
def adictOf {α : Type} (l : List (String × α)) : List (String × α) :=
  l.foldl (fun d kv => aset d kv.1 kv.2) []

/-- Integer-keyed variant of `alookup` (for `defaultdict` keyed by VLAN ids). -/
def ilookup {α : Type} : List (Int × α) → Int → Option α
  | [], _ => none
  | (k, v) :: rest, x => if k = x then some v else ilookup rest x

/-- `defaultdict(list)` append: extend the list at `k`, creating it at the end
on first use (insertion order of first appearance). -/
def iappend {α : Type} (d : List (Int × List α)) (k : Int) (v : α) : List (Int × List α) :=
  if (ilookup d k).isSome then
    d.map fun kv => if kv.1 = k then (kv.1, kv.2 ++ [v]) else kv
  else
    d ++ [(k, [v])]

/-! ## Data model -/

/-- One parsed interface block (`config_parser.parse_config_file` entry):
every field optional, exactly as the Python dict omits undeclared keys. -/
structure Iface where
  ip : Option String := none
  mask : Option String := none
  mtu : Option Int := none
  bandwidth : Option Int := none
  description : Option String := none
  vlan : Option Int := none
deriving DecidableEq

/-- A parsed device record (the `parsed` node attribute): the `interfaces`
dict plus the optional `default_gateway` consulted by the validator. -/
structure Parsed where
  interfaces : List (String × Iface) := []
  default_gateway : Option String := none
deriving DecidableEq

instance : Inhabited Parsed := ⟨{}⟩

/-- The `source` tag of an edge. -/
inductive LinkSource where
  | explicitLink
  | desc_hint
  | subnet
deriving DecidableEq

/-- Edge attributes attached by `topology_builder.build_topology`. -/
structure EdgeAttr where
  ifaces : List String
  mtu : Int
  bandwidth : Int
  up : Bool
  source : LinkSource
deriving DecidableEq

/-- A `networkx.Graph` as used by this program: insertion-ordered nodes with
their `parsed` attribute, and insertion-ordered undirected edges.  An edge is
stored once, with the endpoint orientation of its first insertion. -/
structure NXGraph where
  nodeList : List (String × Parsed)
  edgeList : List (String × String × EdgeAttr)
deriving DecidableEq

namespace NXGraph

def nodeNames (G : NXGraph) : List String := G.nodeList.map Prod.fst

def hasNode (G : NXGraph) (n : String) : Bool := decide (n ∈ G.nodeNames)

/-- `G.nodes[n]["parsed"]`, with `{}` when absent. -/
def parsedOf (G : NXGraph) (n : String) : Parsed := (alookup G.nodeList n).getD {}

/-- `G.add_node(n, parsed=p)`: update the attribute in place or append. -/
def addNode (G : NXGraph) (n : String) (p : Parsed) : NXGraph :=
  { G with nodeList := aset G.nodeList n p }

def hasEdge (G : NXGraph) (u v : String) : Bool :=
  G.edgeList.any fun e => decide ((e.1 = u ∧ e.2.1 = v) ∨ (e.1 = v ∧ e.2.1 = u))

/-- `G.add_edge(u, v, **attr)`: replace the attributes in place when the
unordered pair is already present (keeping stored orientation and position),
otherwise append; endpoints missing from the node list are added (networkx
creates them with no `parsed` attribute). -/
def addEdge (G : NXGraph) (u v : String) (attr : EdgeAttr) : NXGraph :=
  let nl₀ := if G.hasNode u then G.nodeList else G.nodeList ++ [(u, ({} : Parsed))]
  let G₁ : NXGraph := { G with nodeList := nl₀ }
  let nl₁ := if G₁.hasNode v then G₁.nodeList else G₁.nodeList ++ [(v, ({} : Parsed))]
  if G.hasEdge u v then
    { nodeList := nl₁
      edgeList := G.edgeList.map fun e =>
        if (e.1 = u ∧ e.2.1 = v) ∨ (e.1 = v ∧ e.2.1 = u) then (e.1, e.2.1, attr) else e }
  else
    { nodeList := nl₁, edgeList := G.edgeList ++ [(u, v, attr)] }

/-- Neighbors of `z` with edge attributes, in adjacency (edge insertion)
order; a self loop contributes `z` once, as in the networkx adjacency dict. -/
def neighborsA (G : NXGraph) (z : String) : List (String × EdgeAttr) :=
  G.edgeList.filterMap fun e =>
    if e.1 = z then some (e.2.1, e.2.2)
    else if e.2.1 = z then some (e.1, e.2.2)
    else none

def neighbors (G : NXGraph) (z : String) : List String :=
  (G.neighborsA z).map Prod.fst

/-- `G.degree(z)` (a self loop counts twice, as in networkx). -/
def degree (G : NXGraph) (z : String) : Nat :=
  G.edgeList.foldl
    (fun acc e => acc + (if e.1 = z then 1 else 0) + (if e.2.1 = z then 1 else 0)) 0

/-- `G.edges(data=True)` iteration order: nodes in insertion order, each
node's adjacency in insertion order, each edge yielded at its first incident
node. -/
def edgesIterGo (G : NXGraph) : List String → List String → List (String × String × EdgeAttr)
  | [], _ => []
  | n :: rest, seen =>
      ((G.neighborsA n).filterMap fun va =>
        if va.1 ∈ seen then none else some (n, va.1, va.2)) ++
      edgesIterGo G rest (n :: seen)

def edgesIter (G : NXGraph) : List (String × String × EdgeAttr) :=
  edgesIterGo G G.nodeNames []

end NXGraph

/-! ## Connected components (`networkx.connected_components`)

Components are produced in node-insertion order of their first node; each
component is the breadth-first reachable set from that node.  The Python
function yields each component as a `set`; we record the members in BFS
discovery order (membership, not order, is ever used downstream). -/

/-- One BFS round: pop the queue head, enqueue unseen neighbors. -/
def bfsGo (G : NXGraph) : Nat → List String → List String → List String
  | 0, _, visited => visited
  | _ + 1, [], visited => visited
  | fuel + 1, x :: queue, visited =>
      let fresh := (G.neighbors x).filter fun w => decide (w ∉ visited)
      let fresh := fresh.eraseDups
      bfsGo G fuel (queue ++ fresh) (visited ++ fresh)

/-- Nodes reachable from `s`, in BFS discovery order. -/
def bfsFrom (G : NXGraph) (s : String) : List String :=
  bfsGo G (G.nodeList.length + 2 * G.edgeList.length + 2) [s] [s]

def connectedComponentsGo (G : NXGraph) : List String → List String → List (List String)
  | [], _ => []
  | n :: rest, done =>
      if n ∈ done then connectedComponentsGo G rest done
      else
        let comp := bfsFrom G n
        comp :: connectedComponentsGo G rest (done ++ comp)

/-- `list(nx.connected_components(G))`. -/
def connected_components (G : NXGraph) : List (List String) :=
  connectedComponentsGo G G.nodeNames []

/-! ## Simulator (`simulator.py`, `_simulate_link_failure`)

Log lines are modelled structurally, one constructor per f-string of the
source, carrying the interpolated data. -/

inductive SimLog where
  /-- "Invalid link format. Use format like 'R1-R2'." -/
  | invalidFormat
  /-- "Link {a}-{b} brought down" -/
  | linkDown (a b : String)
  /-- "Network partition occurred:" -/
  | partitionWarn
  /-- "Component: {comp}" -/
  | component (members : List String)
  /-- "No such edge" -/
  | noSuchEdge
deriving DecidableEq

/-- `G[a][b]["up"] = False`: flip the `up` attribute of the matching edge. -/
def setEdgeDown (G : NXGraph) (a b : String) : NXGraph :=
  { G with
    edgeList := G.edgeList.map fun e =>
      if (e.1 = a ∧ e.2.1 = b) ∨ (e.1 = b ∧ e.2.1 = a) then
        (e.1, e.2.1, { e.2.2 with up := false })
      else e }

/-- `simulator._simulate_link_failure` (and the public
`simulate_link_failure`, which runs it on a fresh log collector): returns the
graph after the call together with the collected log lines.  Note that the
partition check runs `nx.connected_components` on `G` itself: setting
`up=False` does not remove the edge, so the components are those of the graph
with all its edges. -/
def simulate_link_failure (G : NXGraph) (link_key : String) : NXGraph × List SimLog :=
  match pySplit '-' link_key with
  | [a, b] =>
      if G.hasEdge a b then
        let G2 := setEdgeDown G a b
        let comps := connected_components G2
        if comps.length > 1 then
          (G2, [SimLog.linkDown a b, SimLog.partitionWarn] ++ comps.map SimLog.component)
        else
          (G2, [SimLog.linkDown a b])
      else
        (G, [SimLog.noSuchEdge])
  | _ => (G, [SimLog.invalidFormat])

/-! ## Link file parsing (`config_parser.parse_links_file`)

The file is consumed line by line; we model the file contents as the list of
its lines.  Blank and `#`-comment lines are ignored; a line without `-`, or
whose stripped halves lack a `:`, is skipped with a warning. -/

def parse_links_file (lines : List String) : List (String × String) :=
  lines.filterMap fun line0 =>
    let line := pyStrip line0
    if line = "" then none
    else if pyStartsWith "#" line then none
    else if !(pyIn "-" line) then none
    else
      let lr := pySplitOnce line '-'
      let left := pyStrip lr.1
      let right := pyStrip lr.2
      if !(pyIn ":" left) || !(pyIn ":" right) then none
      else some (left, right)

/-! ## Topology builder (`topology_builder.build_topology`) -/

/-- `k.strip().lower()`: the interface-key normalization. -/
def normKey (k : String) : String := pyLower (pyStrip k)

/-- The in-place update `pdata["interfaces"] = {k.strip().lower(): v for k, v
in interfaces.items()}` performed on each device record. -/
def normParsed (p : Parsed) : Parsed :=
  { p with interfaces := adictOf (p.interfaces.map fun kv => (normKey kv.1, kv.2)) }

/-- `utils.is_same_subnet`: the source builds both `IPv4Network`s and computes
the comparison, but then evaluates `log.debug(...)` — and `utils.py` never
defines `log` (no `log = get_logger(...)` and no import).  The call raises
`NameError`; the `except` handler calls `log.warning(...)`, raising `NameError`
again, so every call of this function propagates an exception and it never
returns normally. -/
def is_same_subnet (_ip1 _mask1 _ip2 _mask2 : String) : Except String Bool :=
  Except.error "NameError: name log is not defined"

/-- The guarded call `utils.is_same_subnet(ifd["ip"], ifd["mask"],
ifdb["ip"], ifdb["mask"])`: a missing `mask` key raises `KeyError` inside the
same `try`.  (`ip` presence is checked by the caller.) -/
def subnetCall (ifd ifdb : Iface) : Except String Bool :=
  match ifd.ip, ifd.mask, ifdb.ip, ifdb.mask with
  | some ip1, some m1, some ip2, some m2 => is_same_subnet ip1 m1 ip2 m2
  | _, _, _, _ => Except.error "KeyError: mask"

/-- The description-hint scan: first interface of `pa` (declaration order)
whose description is nonempty and contains `b` as a substring. -/
def descScan (pa : Parsed) (b : String) : Option (String × Iface) :=
  pa.interfaces.findSome? fun ai =>
    let desc := (ai.2.description).getD ""
    if desc ≠ "" ∧ pyIn b desc then some ai else none

/-- The subnet-overlap scan: first `(ifa, ifb)` pair (outer loop over `pa`,
inner over `pb`, both restricted to interfaces with an `ip` key) for which
the subnet check *returns* `True`; an exception from the check is caught and
treated as no match for that pair. -/
def subnetScan (pa pb : Parsed) : Option (String × Iface × String × Iface) :=
  pa.interfaces.findSome? fun ai =>
    if ai.2.ip.isSome then
      pb.interfaces.findSome? fun bi =>
        if bi.2.ip.isSome then
          match subnetCall ai.2 bi.2 with
          | Except.ok true => some (ai.1, ai.2, bi.1, bi.2)
          | _ => none
        else none
    else none

/-- `parsed_configs.get(dev, {}).get("interfaces", {})`. -/
def interfacesOf (cfgs : List (String × Parsed)) (d : String) : List (String × Iface) :=
  ((alookup cfgs d).getD {}).interfaces

/-- `interfaces.get(i, {}).get("mtu", 1500)`. -/
def ifaceMtu (ifs : List (String × Iface)) (i : String) : Int :=
  (((alookup ifs i).getD {}).mtu).getD 1500

/-- `interfaces.get(i, {}).get("bandwidth", 1000)`. -/
def ifaceBw (ifs : List (String × Iface)) (i : String) : Int :=
  (((alookup ifs i).getD {}).bandwidth).getD 1000

/-- `ep1.split(":")` / `ep2.split(":")` with tuple unpacking: both endpoint
strings must split into exactly two parts; otherwise the link entry is
skipped with a warning.  Device names are stripped, interface names
normalized. -/
def parseEndpoint2 (ep1 ep2 : String) : Option (String × String × String × String) :=
  match pySplit ':' ep1, pySplit ':' ep2 with
  | [d1, i1], [d2, i2] => some (pyStrip d1, normKey i1, pyStrip d2, normKey i2)
  | _, _ => none

/-- Processing of one explicit link `(dev1, if1, dev2, if2)`: skipped if a
device is not a node or a named interface is absent; otherwise an edge with
`source=explicit` and min-of-both attributes. -/
def addExplicit (cfgs : List (String × Parsed)) (g : NXGraph)
    (l : String × String × String × String) : NXGraph :=
  let (d1, i1, d2, i2) := l
  if g.hasNode d1 && g.hasNode d2 then
    let ifs1 := interfacesOf cfgs d1
    let ifs2 := interfacesOf cfgs d2
    if (alookup ifs1 i1).isNone then g
    else if (alookup ifs2 i2).isNone then g
    else
      g.addEdge d1 d2
        { ifaces := [d1 ++ ":" ++ i1, d2 ++ ":" ++ i2]
          mtu := min (ifaceMtu ifs1 i1) (ifaceMtu ifs2 i2)
          bandwidth := min (ifaceBw ifs1 i1) (ifaceBw ifs2 i2)
          up := true
          source := LinkSource.explicitLink }
  else g

/-- Heuristic inference for one unordered pair `(a, b)`: nothing if an edge
exists; otherwise the description hint (single-sided edge, mtu capped at
1500), and only if that found nothing, the subnet overlap. -/
def inferPair (cfgs : List (String × Parsed)) (g : NXGraph) (ab : String × String) : NXGraph :=
  let (a, b) := ab
  if g.hasEdge a b then g
  else
    let pa := (alookup cfgs a).getD {}
    let pb := (alookup cfgs b).getD {}
    match descScan pa b with
    | some ai =>
        g.addEdge a b
          { ifaces := [a ++ ":" ++ ai.1]
            mtu := min ((ai.2.mtu).getD 1500) 1500
            bandwidth := (ai.2.bandwidth).getD 1000
            up := true
            source := LinkSource.desc_hint }
    | none =>
      match subnetScan pa pb with
      | some r =>
          g.addEdge a b
            { ifaces := [a ++ ":" ++ r.1, b ++ ":" ++ r.2.2.1]
              mtu := min ((r.2.1.mtu).getD 1500) ((r.2.2.2.mtu).getD 1500)
              bandwidth := min ((r.2.1.bandwidth).getD 1000) ((r.2.2.2.bandwidth).getD 1000)
              up := true
              source := LinkSource.subnet }
      | none => g

/-- `i < j` pairs of a list, in the nested-loop order of the source. -/
def upairs {α : Type} : List α → List (α × α)
  | [] => []
  | x :: xs => xs.map (fun y => (x, y)) ++ upairs xs

/-- `topology_builder.build_topology`.  The input is the parsed-configs dict
(hostname to record) and, optionally, the lines of `links.txt` (absent file
or absent `config_dir` = `none`).  The function first *mutates* each record,
replacing its `interfaces` dict by a key-normalized copy; it returns the
graph together with the post-call state of `parsed_configs`. -/
def build_topology (parsed_configs : List (String × Parsed))
    (linkLines : Option (List String)) : NXGraph × List (String × Parsed) :=
  let cfgs := parsed_configs.map fun hp => (hp.1, normParsed hp.2)
  let g0 : NXGraph := { nodeList := [], edgeList := [] }
  let g1 := cfgs.foldl (fun g hp => g.addNode hp.1 hp.2) g0
  let raw := match linkLines with
    | none => []
    | some ls => parse_links_file ls
  let explicitLinks := raw.filterMap fun p => parseEndpoint2 p.1 p.2
  let g2 := explicitLinks.foldl (addExplicit cfgs) g1
  let hosts := cfgs.map Prod.fst
  let g3 := (upairs hosts).foldl (inferPair cfgs) g2
  (g3, cfgs)

/-! ## IPv4 addresses and networks (model of the `ipaddress` stdlib uses)

Only the operations the validator performs are modelled: parsing a dotted
address, parsing a mask (prefix length, netmask, or hostmask) and computing
the network address of `IPv4Network(f"{ip}/{mask}", strict=False)`. -/

/-- One dotted-quad octet: decimal digits, at most 3, no leading zero,
value at most 255. -/
def parseOctet (s : String) : Option Nat :=
  if s = "" then none
  else if !(s.data.all Char.isDigit) then none
  else if s.length > 3 then none
  else if s.length > 1 && s.data.headD '0' = '0' then none
  else if digitsVal s.data ≤ 255 then some (digitsVal s.data)
  else none

/-- `IPv4Address(s)` as a 32-bit value. -/
def parseIPv4 (s : String) : Option Nat :=
  match pySplit '.' s with
  | [a, b, c, d] => do
      let x ← parseOctet a
      let y ← parseOctet b
      let z ← parseOctet c
      let w ← parseOctet d
      pure (((x * 256 + y) * 256 + z) * 256 + w)
  | _ => none

/-- Prefix length of a value that is a contiguous netmask, if any. -/
def netmaskPrefixLen (m : Nat) : Option Nat :=
  (List.range 33).find? fun p => decide (m = 4294967296 - 2 ^ (32 - p))

/-- The mask half of `IPv4Network(f"{ip}/{mask}")`: a decimal prefix length,
a dotted netmask, or a dotted hostmask. -/
def maskToPrefixLen (s : String) : Option Nat :=
  if s ≠ "" && s.data.all Char.isDigit then
    (if digitsVal s.data ≤ 32 then some (digitsVal s.data) else none)
  else
    match parseIPv4 s with
    | some m =>
        match netmaskPrefixLen m with
        | some p => some p
        | none => netmaskPrefixLen (4294967295 - m)
    | none => none

/-- Mask the host bits off under a prefix length. -/
def netAddr (ip p : Nat) : Nat := ip / 2 ^ (32 - p) * 2 ^ (32 - p)

/-- `IPv4Network(f"{ip}/{mask}", strict=False)` as
`(network_address, prefixlen)`; `none` models the raised `ValueError`. -/
def ipv4NetworkOf (ip mask : String) : Option (Nat × Nat) :=
  match parseIPv4 ip, maskToPrefixLen mask with
  | some a, some p => some (netAddr a p, p)
  | _, _ => none

/-! ## Validator (`validator.validate_topology`)

Issues are modelled structurally, one constructor per issue f-string of the
source, carrying exactly the interpolated data (owners are the rendered
`"node:iface"` strings). -/

inductive Issue where
  /-- "Duplicate IP {ip} in VLAN {vlan}: {seen[ip]} and {node}:{iface}" -/
  | duplicateIP (ip : String) (vlan : Int) (firstOwner secondOwner : String)
  /-- "MTU mismatch between {u} ({mtu_u}) and {v} ({mtu_v})" -/
  | mtuMismatch (u : String) (mtuU : Int) (v : String) (mtuV : Int)
  /-- "Default gateway {dg} on {node} not in any local interface subnet" -/
  | badGateway (node gateway : String)
  /-- "Network loop detected among nodes: {' -> '.join(c)}" -/
  | networkLoop (nodes : List String)
deriving DecidableEq

/-- One interface's contribution to check 1: present only when `vlan` and
`ip` are both present and truthy (`if vlan and ip:`, so VLAN 0 and the
empty-string IP are excluded). -/
def vlanEntryOf (node : String) (ii : String × Iface) :
    Option (Int × String × String × String) :=
  match ii.2.vlan, ii.2.ip with
  | some v, some ip => if v ≠ 0 ∧ ip ≠ "" then some (v, node, ii.1, ip) else none
  | _, _ => none

/-- The `(vlan, (node, iface, ip))` records collected by check 1. -/
def vlanEntries (G : NXGraph) : List (Int × String × String × String) :=
  G.nodeList.flatMap fun np => np.2.interfaces.filterMap (vlanEntryOf np.1)

/-- `vlan_ips = defaultdict(list)` grouping, keyed in first-appearance
order. -/
def vlanGroups (G : NXGraph) : List (Int × List (String × String × String)) :=
  (vlanEntries G).foldl (fun d e => iappend d e.1 e.2) []

/-- The per-VLAN scan with its `seen` dict: each entry whose IP was already
seen yields one issue naming the first owner and the current one. -/
def dupGo (v : Int) : List (String × String × String) → List (String × String) → List Issue
  | [], _ => []
  | e :: rest, seen =>
      let owner := e.1 ++ ":" ++ e.2.1
      match alookup seen e.2.2 with
      | some firstOwner => Issue.duplicateIP e.2.2 v firstOwner owner :: dupGo v rest seen
      | none => dupGo v rest ((e.2.2, owner) :: seen)

/-- Check 1: duplicate IPs per VLAN. -/
def dupIssues (G : NXGraph) : List Issue :=
  (vlanGroups G).flatMap fun g => dupGo g.1 g.2 []

/-- First half of `_node_iface_mtu_to_neighbor`: an interface whose
description mentions the neighbor *and* declares an MTU (if the description
matches but no `mtu` key exists, the loop moves on). -/
def mtuDescScan (p : Parsed) (neighbor : String) : Option Int :=
  p.interfaces.findSome? fun ii =>
    let desc := (ii.2.description).getD ""
    if desc ≠ "" ∧ pyIn neighbor desc then
      match ii.2.mtu with
      | some m => some m
      | none => none
    else none

/-- Python `a or b` on optional ints (`0` and `None` are falsy). -/
def pyOrInt : Option Int → Option Int → Option Int
  | some x, b => if x ≠ 0 then some x else b
  | none, b => b

/-- Second half of `_node_iface_mtu_to_neighbor`: first interface pair with
`ip`+`mask` on both sides whose parsed networks share a network address;
the function then *returns* `ifd.get("mtu") or nifd.get("mtu")` (which may
be `None`).  A parse failure is caught and skips that pair. -/
def mtuSubnetScan (p np : Parsed) : Option (Option Int) :=
  p.interfaces.findSome? fun ii =>
    match ii.2.ip, ii.2.mask with
    | some ip, some mask =>
        np.interfaces.findSome? fun ni =>
          match ni.2.ip, ni.2.mask with
          | some nip, some nmask =>
              match ipv4NetworkOf ip mask, ipv4NetworkOf nip nmask with
              | some n1, some n2 =>
                  if n1.1 = n2.1 then some (pyOrInt ii.2.mtu ni.2.mtu) else none
              | _, _ => none
          | _, _ => none
    | _, _ => none

/-- `validator._node_iface_mtu_to_neighbor`. -/
def _node_iface_mtu_to_neighbor (G : NXGraph) (node neighbor : String) : Option Int :=
  let p := G.parsedOf node
  match mtuDescScan p neighbor with
  | some m => some m
  | none =>
      match mtuSubnetScan p (G.parsedOf neighbor) with
      | some r => r
      | none => none

/-- Check 2: MTU mismatches over the edges (`if mtu_u and mtu_v and mtu_u !=
mtu_v`, so a resolved MTU of 0 never reports). -/
def mtuIssues (G : NXGraph) : List Issue :=
  (G.edgesIter).filterMap fun e =>
    match _node_iface_mtu_to_neighbor G e.1 e.2.1,
          _node_iface_mtu_to_neighbor G e.2.1 e.1 with
    | some a, some b =>
        if a ≠ 0 ∧ b ≠ 0 ∧ a ≠ b then some (Issue.mtuMismatch e.1 a e.2.1 b) else none
    | _, _ => none

/-- Is the gateway inside some local interface subnet? (a parse failure on
an interface is caught and treated as not containing). -/
def gwOk (p : Parsed) (dg : String) : Bool :=
  p.interfaces.any fun ii =>
    match ii.2.ip, ii.2.mask with
    | some ip, some mask =>
        match parseIPv4 dg, ipv4NetworkOf ip mask with
        | some a, some n => decide (netAddr a n.2 = n.1)
        | _, _ => false
    | _, _ => false

/-- Check 3: bad default gateways. -/
def gwIssues (G : NXGraph) : List Issue :=
  G.nodeList.filterMap fun np =>
    match np.2.default_gateway with
    | some dg =>
        if dg ≠ "" then (if gwOk np.2 dg then none else some (Issue.badGateway np.1 dg))
        else none
    | none => none

/-! ### Cycle basis (`networkx.cycle_basis`, Paton's algorithm)

Modelled on the edge skeleton (node order plus edge endpoint list) since the
algorithm never reads attributes.  The spanning-forest state is made explicit
and the two nested `while` loops become one fueled recursion; the fuel is an
upper bound on the total number of loop iterations, so it never runs out. -/

structure CBSt where
  pred : List (String × String)
  used : List (String × List String)
  cycles : List (List String)
deriving DecidableEq

/-- `used[nbr].add(z)` (sets are modelled as lists; only membership is ever
consumed). -/
def aaddUsed (used : List (String × List String)) (k z : String) :
    List (String × List String) :=
  used.map fun kv => (kv.1, if kv.1 = k then kv.2 ++ [z] else kv.2)

/-- Adjacency of `z` on an endpoint list. -/
def adjOf (ends : List (String × String)) (z : String) : List String :=
  ends.filterMap fun e =>
    if e.1 = z then some e.2 else if e.2 = z then some e.1 else none

/-- The inner `while p not in pn` walk up the predecessor chain. -/
def buildCycle (pred : List (String × String)) :
    Nat → List String → String → List String → List String
  | 0, _, p, acc => acc ++ [p]
  | fuel + 1, pn, p, acc =>
      if p ∈ pn then acc ++ [p]
      else buildCycle pred fuel pn ((alookup pred p).getD p) (acc ++ [p])

/-- The `for nbr in G[z]` body: discover new nodes (pushing them), record a
self loop, skip already-used neighbors, or emit a fundamental cycle. -/
def processNbrs (z : String) (zused : List String) :
    List String → CBSt → List String → CBSt × List String
  | [], st, stack => (st, stack)
  | nbr :: rest, st, stack =>
      match alookup st.used nbr with
      | none =>
          processNbrs z zused rest
            { st with pred := (nbr, z) :: st.pred, used := (nbr, [z]) :: st.used }
            (nbr :: stack)
      | some _ =>
          if nbr = z then
            processNbrs z zused rest { st with cycles := st.cycles ++ [[z]] } stack
          else if nbr ∈ zused then
            processNbrs z zused rest st stack
          else
            let pn := (alookup st.used nbr).getD []
            let cyc := buildCycle st.pred (st.pred.length + 1) pn
              ((alookup st.pred z).getD z) [nbr, z]
            processNbrs z zused rest
              { st with cycles := st.cycles ++ [cyc], used := aaddUsed st.used nbr z }
              stack

/-- The two nested `while` loops: pop the spanning-tree stack while nonempty;
otherwise drop the finished component from `gnodes` and (dict `popitem`)
start a new component at the last remaining node, resetting `pred`/`used`. -/
def cbRun (ends : List (String × String)) : Nat → List String → List String → CBSt → CBSt
  | 0, _, _, st => st
  | fuel + 1, gnodes, z :: stackRest, st =>
      let zused := (alookup st.used z).getD []
      let r := processNbrs z zused (adjOf ends z) st stackRest
      cbRun ends fuel gnodes r.2 r.1
  | fuel + 1, gnodes, [], st =>
      let g2 := gnodes.filter fun n => (alookup st.pred n).isNone
      match g2.getLast? with
      | none => st
      | some root =>
          cbRun ends fuel g2.dropLast [root]
            { pred := [(root, root)], used := [(root, [])], cycles := st.cycles }

/-- `nx.cycle_basis(G)`. -/
def cycle_basis (G : NXGraph) : List (List String) :=
  let ends := G.edgeList.map fun e => (e.1, e.2.1)
  (cbRun ends (2 * G.nodeList.length + 4 * G.edgeList.length + 2) G.nodeNames []
    { pred := [], used := [], cycles := [] }).cycles

/-- Check 4: one `NetworkLoop` issue per basis cycle. -/
def loopIssues (G : NXGraph) : List Issue :=
  (cycle_basis G).map Issue.networkLoop

/-- `validator.validate_topology`: the four independent checks, concatenated
in their fixed order. -/
def validate_topology (G : NXGraph) : List Issue :=
  dupIssues G ++ mtuIssues G ++ gwIssues G ++ loopIssues G

/-! ## Bandwidth checker (`bandwidth_checker.check_bandwidth`)

Python floats are modelled as exact rationals.  `nx.shortest_path` (hop
count) is modelled by a deterministic breadth-first search; the spec leaves
the tie-break among equal-length paths to "whatever the underlying routine
returns deterministically", and no claim depends on it. -/

/-- BFS parent map from `s`: returns `(parent, visited)`. -/
def bfsParentsGo (G : NXGraph) :
    Nat → List String → List (String × String) → List String →
    List (String × String) × List String
  | 0, _, par, visited => (par, visited)
  | _ + 1, [], par, visited => (par, visited)
  | fuel + 1, x :: queue, par, visited =>
      let fresh := ((G.neighbors x).filter fun w => decide (w ∉ visited)).eraseDups
      bfsParentsGo G fuel (queue ++ fresh) (par ++ fresh.map fun w => (w, x))
        (visited ++ fresh)

/-- Read the path out of the parent map. -/
def pathFrom (par : List (String × String)) : Nat → String → String → Option (List String)
  | 0, _, _ => none
  | fuel + 1, s, t =>
      if t = s then some [s]
      else
        match alookup par t with
        | none => none
        | some p => (pathFrom par fuel s p).map fun l => l ++ [t]

/-- `nx.shortest_path(G, a, b)` (unweighted): `none` models the raised
`NetworkXNoPath`. -/
def shortest_path (G : NXGraph) (a b : String) : Option (List String) :=
  let fuel := G.nodeList.length + 2 * G.edgeList.length + 2
  let pv := bfsParentsGo G fuel [a] [] [a]
  if b ∈ pv.2 then pathFrom pv.1 (pv.2.length + 1) a b else none

/-- Lexicographic code-point comparison (Python string `<`). -/
def charLt : List Char → List Char → Bool
  | [], [] => false
  | [], _ :: _ => true
  | _ :: _, [] => false
  | a :: as, b :: bs =>
      if a.toNat < b.toNat then true
      else if b.toNat < a.toNat then false
      else charLt as bs

def pyStrLt (a b : String) : Bool := charLt a.data b.data

/-- Accumulate demand on every edge of a path, keyed by
`tuple(sorted([u, v]))`. -/
def sortedKey (u v : String) : String × String :=
  if pyStrLt v u then (v, u) else (u, v)

/-- Type-specialized association update for the `link_load` defaultdict. -/
def loadAdd (m : List ((String × String) × ℚ)) (k : String × String) (q : ℚ) :
    List ((String × String) × ℚ) :=
  if m.any fun kv => kv.1 = k then
    m.map fun kv => if kv.1 = k then (kv.1, kv.2 + q) else kv
  else
    m ++ [(k, q)]

def loadLookup (m : List ((String × String) × ℚ)) (k : String × String) : ℚ :=
  match m.find? fun kv => kv.1 = k with
  | some kv => kv.2
  | none => 0

/-- Add `demand` along one path's consecutive edges. -/
def addPathLoad (demand : ℚ) (m : List ((String × String) × ℚ)) :
    List String → List ((String × String) × ℚ)
  | u :: v :: rest => addPathLoad demand (loadAdd m (sortedKey u v) demand) (v :: rest)
  | _ => m

/-- The all-ordered-pairs demand loop of `check_bandwidth`. -/
def linkLoadOf (G : NXGraph) (demand : ℚ) : List ((String × String) × ℚ) :=
  let nodes := G.nodeNames
  (nodes.flatMap fun a => nodes.map fun b => (a, b)).foldl
    (fun m ab =>
      if ab.1 = ab.2 then m
      else
        match shortest_path G ab.1 ab.2 with
        | none => m
        | some path => addPathLoad demand m path)
    []

/-- One entry of the `links` dict of `check_bandwidth`. -/
structure LinkInfo where
  capacity : ℚ
  load : ℚ
  utilization : ℚ
deriving DecidableEq

/-- The utilization record for one edge. -/
def linkInfoOf (loadMap : List ((String × String) × ℚ)) (u v : String)
    (attr : EdgeAttr) : LinkInfo :=
  let capacity : ℚ := attr.bandwidth
  let load := loadLookup loadMap (sortedKey u v)
  { capacity := capacity
    load := load
    utilization := if capacity > 0 then load / capacity else 0 }

/-- The `links` dict of `check_bandwidth`: keyed by the *string*
`f"{u}-{v}"`, assigned in edge-iteration order (a later edge with the same
key overwrites the earlier value in place). -/
def linksOf (G : NXGraph) (demand : ℚ) : List (String × LinkInfo) :=
  let loadMap := linkLoadOf G demand
  (G.edgesIter).foldl
    (fun d e => aset d (e.1 ++ "-" ++ e.2.1) (linkInfoOf loadMap e.1 e.2.1 e.2.2)) []

/-- `bandwidth_checker.check_bandwidth(G)` with the default
`demand_per_pair_mbps=10.0`, restricted to the `links` part consumed by the
analyzer. -/
def check_bandwidth (G : NXGraph) : List (String × LinkInfo) :=
  linksOf G 10

/-! ## Analyzer (`analyzer.analyze_network`), resiliency score -/

/-- Floor of a rational (computable, kernel-reducible). -/
def ratFloor (q : ℚ) : ℤ := q.num.fdiv (q.den : ℤ)

/-- Python `round(x, 2)`: round half to even on hundredths. -/
def py_round2 (q : ℚ) : ℚ :=
  let x := q * 100
  let n := ratFloor x
  let r := x - n
  let m : ℤ :=
    if r < 1 / 2 then n
    else if 1 / 2 < r then n + 1
    else if n % 2 = 0 then n else n + 1
  (m : ℚ) / 100

/-- The resiliency computation of `analyze_network`: 50 points scaled by the
fraction of nodes of degree above one (`node_count or 1` guards the empty
graph), plus the mean headroom over the `links` dict values scaled by 50
(defaulting to 25 when the dict is empty), rounded to two decimals. -/
def analyze_network_resiliency (G : NXGraph) : ℚ :=
  let node_count := G.nodeList.length
  let degrees := G.nodeNames.map G.degree
  let redundancy_score : ℚ :=
    ((degrees.filter fun d => decide (d > 1)).length : ℚ) /
      ((if node_count = 0 then 1 else node_count : ℕ) : ℚ) * 50
  let headrooms := (check_bandwidth G).map fun kv => max 0 (1 - kv.2.utilization)
  let headroom_score : ℚ :=
    if headrooms.length = 0 then 25 else headrooms.sum / (headrooms.length : ℚ) * 50
  py_round2 (redundancy_score + headroom_score)

/-! ## Specification-side definitions

Definitions in this section transcribe the *spec's wording* (for refinement
comparisons and for stating claims), not the source. -/

/-- The MTU declared on one `"dev:iface"` constituent-interface reference of
an edge, default 1500 (spec wording for C2). -/
def refMtu (cfgs : List (String × Parsed)) (r : String) : Int :=
  match pySplit ':' r with
  | [d, i] => ifaceMtu (interfacesOf cfgs d) i
  | _ => 1500

/-- The bandwidth declared on one constituent-interface reference, default
1000 (spec wording for C2). -/
def refBw (cfgs : List (String × Parsed)) (r : String) : Int :=
  match pySplit ':' r with
  | [d, i] => ifaceBw (interfacesOf cfgs d) i
  | _ => 1000

/-- Minimum over a nonempty list of values (spec wording: "the minimum of
the corresponding values on its constituent interfaces"). -/
def listMin (dflt : Int) : List Int → Int
  | [] => dflt
  | x :: xs => xs.foldl min x

/-- Claim C2 as stated: every edge's `mtu` and `bandwidth` equal the minimum
of the values declared on its constituent interfaces (defaults 1500/1000),
the interfaces being looked up in the (post-call) device records. -/
def claimC2Holds (cfgs : List (String × Parsed)) (lines : Option (List String)) : Prop :=
  ∀ e ∈ (build_topology cfgs lines).1.edgeList,
    e.2.2.mtu = listMin 1500 (e.2.2.ifaces.map (refMtu (build_topology cfgs lines).2)) ∧
    e.2.2.bandwidth = listMin 1000 (e.2.2.ifaces.map (refBw (build_topology cfgs lines).2))

instance (cfgs lines) : Decidable (claimC2Holds cfgs lines) := by
  unfold claimC2Holds; infer_instance

/-- Claim C2 as amended: what actually holds of every edge attribute
produced by `build_topology` (looking constituent interfaces up in the
post-call records).  Explicit edges take the min of both interfaces'
declared values (defaults 1500/1000); desc-hint edges take the single
interface's values but with the MTU additionally capped at 1500; subnet
edges are never produced. -/
def edgeOK (cfgs : List (String × Parsed)) (attr : EdgeAttr) : Prop :=
  (attr.source = LinkSource.explicitLink →
    ∃ d1 i1 d2 i2,
      attr.ifaces = [d1 ++ ":" ++ i1, d2 ++ ":" ++ i2] ∧
      attr.mtu = min (ifaceMtu (interfacesOf cfgs d1) i1) (ifaceMtu (interfacesOf cfgs d2) i2) ∧
      attr.bandwidth =
        min (ifaceBw (interfacesOf cfgs d1) i1) (ifaceBw (interfacesOf cfgs d2) i2)) ∧
  (attr.source = LinkSource.desc_hint →
    ∃ d i,
      attr.ifaces = [d ++ ":" ++ i] ∧
      attr.mtu = min (ifaceMtu (interfacesOf cfgs d) i) 1500 ∧
      attr.bandwidth = ifaceBw (interfacesOf cfgs d) i) ∧
  attr.source ≠ LinkSource.subnet

/-- A record whose interface keys are already in normalized form and
pairwise distinct (what a Python dict produced by the parser, with already
stripped-lowercase keys, looks like). -/
def interfacesNormalized (p : Parsed) : Prop :=
  (p.interfaces.map Prod.fst).Nodup ∧ ∀ kv ∈ p.interfaces, normKey kv.1 = kv.1

instance (p : Parsed) : Decidable (interfacesNormalized p) := by
  unfold interfacesNormalized; infer_instance

/-- The spec's description of the duplicate-IP report (C4): within one VLAN
group, each entry whose IP already occurred earlier is reported once, with
the *first* occurrence as first owner; `pre` is the list of entries already
iterated. -/
def specDupGo (v : Int) :
    List (String × String × String) → List (String × String × String) → List Issue
  | _, [] => []
  | pre, e :: rest =>
      (match pre.find? (fun e0 => decide (e0.2.2 = e.2.2)) with
       | some e0 =>
           [Issue.duplicateIP e.2.2 v (e0.1 ++ ":" ++ e0.2.1) (e.1 ++ ":" ++ e.2.1)]
       | none => []) ++ specDupGo v (pre ++ [e]) rest

/-- The duplicate-IP issues as the spec words them (C4). -/
def specDupIssues (G : NXGraph) : List Issue :=
  (vlanGroups G).flatMap fun g => specDupGo g.1 [] g.2

def isDupIP : Issue → Bool
  | Issue.duplicateIP _ _ _ _ => true
  | _ => false

def isLoopIssue : Issue → Bool
  | Issue.networkLoop _ => true
  | _ => false

/-- An interface participates in duplicate-IP detection only when both
`vlan` and `ip` are present and truthy (C10). -/
def truthyVlanIp (ifd : Iface) : Bool :=
  match ifd.vlan, ifd.ip with
  | some v, some ip => decide (v ≠ 0 ∧ ip ≠ "")
  | _, _ => false

/-- Drop every interface that duplicate-IP detection ignores (C10). -/
def pruneUntruthy (G : NXGraph) : NXGraph :=
  { G with
    nodeList := G.nodeList.map fun np =>
      (np.1, { np.2 with interfaces := np.2.interfaces.filter fun ii => truthyVlanIp ii.2 }) }

/-- The resiliency score exactly as claim C7 words it: 50 times the fraction
of nodes with degree above one (zero when there are no nodes), plus 50 times
the mean over all *edges* of `max 0 (1 - utilization)` (the term defaulting
to 25 with zero edges), rounded to two decimals.  Utilization is the one
computed by `check_bandwidth`. -/
def specResiliencyScore (G : NXGraph) : ℚ :=
  let n := G.nodeList.length
  let frac : ℚ :=
    if n = 0 then 0
    else (((G.nodeNames.map G.degree).filter fun d => decide (d > 1)).length : ℚ) / (n : ℚ)
  let edges := G.edgesIter
  let loadMap := linkLoadOf G 10
  let hterm : ℚ :=
    if edges = [] then 25
    else 50 * (((edges.map fun e =>
      max 0 (1 - (linkInfoOf loadMap e.1 e.2.1 e.2.2).utilization)).sum) / (edges.length : ℚ))
  py_round2 (50 * frac + hterm)

/-- The `f"{u}-{v}"` keys of the links dict are pairwise distinct (always
true when no node name contains a hyphen). -/
def linkKeysDistinct (G : NXGraph) : Prop :=
  ((G.edgesIter).map fun e => e.1 ++ "-" ++ e.2.1).Nodup

instance (G : NXGraph) : Decidable (linkKeysDistinct G) := by
  unfold linkKeysDistinct; infer_instance

/-- A malformed link-file line in the sense of C9: a real content line (not
blank, not a comment) lacking the `-` separator or lacking a `:` in one of
its stripped halves. -/
def malformedLinkLine (line0 : String) : Prop :=
  pyStrip line0 ≠ "" ∧ pyStartsWith "#" (pyStrip line0) = false ∧
    (pyIn "-" (pyStrip line0) = false ∨
      pyIn ":" (pyStrip (pySplitOnce (pyStrip line0) '-').1) = false ∨
      pyIn ":" (pyStrip (pySplitOnce (pyStrip line0) '-').2) = false)

instance (line0 : String) : Decidable (malformedLinkLine line0) := by
  unfold malformedLinkLine; infer_instance

/-! ## Graph-theoretic view for the loop claims (C8) -/

/-- The endpoint skeleton of the edge list. -/
def endsOf (G : NXGraph) : List (String × String) := G.edgeList.map fun e => (e.1, e.2.1)

/-- Unordered-pair membership in an endpoint list. -/
def epairMem (x y : String) (ends : List (String × String)) : Prop :=
  (x, y) ∈ ends ∨ (y, x) ∈ ends

instance (x y : String) (ends : List (String × String)) : Decidable (epairMem x y ends) := by
  unfold epairMem; infer_instance

/-- The simple graph spanned by an endpoint list (self pairs dropped). -/
def toSimple (ends : List (String × String)) : SimpleGraph String where
  Adj x y := x ≠ y ∧ epairMem x y ends
  symm := by
    intro x y h
    exact ⟨Ne.symm h.1, h.2.elim (fun m => Or.inr m) (fun m => Or.inl m)⟩
  loopless := by
    intro x h
    exact h.1 rfl

/-- Two stored edges are distinct as unordered pairs. -/
def upairNe (e f : String × String) : Prop :=
  ¬(e.1 = f.1 ∧ e.2 = f.2) ∧ ¬(e.1 = f.2 ∧ e.2 = f.1)

instance : DecidableRel upairNe := by
  intro e f
  unfold upairNe
  infer_instance

/-- Well-formedness that networkx guarantees by construction: at most one
stored edge per unordered pair. -/
def edgesWF (G : NXGraph) : Prop := (endsOf G).Pairwise upairNe

instance (G : NXGraph) : Decidable (edgesWF G) := by
  unfold edgesWF
  exact List.instDecidablePairwise _

/-- No self loops. -/
def noSelfLoops (G : NXGraph) : Prop := ∀ e ∈ endsOf G, e.1 ≠ e.2

instance (G : NXGraph) : Decidable (noSelfLoops G) := by
  unfold noSelfLoops; infer_instance

/-- Spanning-forest adjacency recorded in the `pred` map of Paton's
algorithm. -/
def treeAdj (pred : List (String × String)) (x y : String) : Prop :=
  x ≠ y ∧ (alookup pred x = some y ∨ alookup pred y = some x)

/-- The loop invariant of the per-component walk of `cbRun`/`processNbrs`:
`pred`/`used` describe a spanning tree of visited nodes rooted at `root`,
whose tree edges are graph edges, with the stack holding not-yet-expanded
visited nodes. -/
structure CBInv (ends : List (String × String)) (root : String)
    (pred : List (String × String)) (used : List (String × List String))
    (stack : List String) : Prop where
  align : ∀ x, (alookup pred x).isSome ↔ (alookup used x).isSome
  pred_edge : ∀ x y, alookup pred x = some y → x = y ∨ epairMem x y ends
  self_root : ∀ x, alookup pred x = some x → x = root
  pred_used : ∀ x y, alookup pred x = some y → x ≠ y →
      ∃ l, alookup used x = some l ∧ y ∈ l
  pred_dom : ∀ x y, alookup pred x = some y → (alookup pred y).isSome
  reach : ∀ x, (alookup pred x).isSome → Relation.ReflTransGen (treeAdj pred) x root
  stack_dom : ∀ z ∈ stack, (alookup pred z).isSome
  stack_nodup : stack.Nodup
  pred_not_stack : ∀ x y, alookup pred x = some y → x ≠ y → y ∉ stack
  stack_target : ∀ s ∈ stack, ∀ n, alookup pred n = some s → n = s

/-- The canonical 3-node ring on `a`, `b`, `c` (nodes and edges in their
declaration order, no parsed payloads — `cycle_basis` never reads them). -/
def ringAttr : EdgeAttr :=
  { ifaces := [], mtu := 1500, bandwidth := 1000, up := true, source := LinkSource.explicitLink }

def ringOf (a b c : String) : NXGraph :=
  { nodeList := [(a, {}), (b, {}), (c, {})]
    edgeList := [(a, b, ringAttr), (b, c, ringAttr), (c, a, ringAttr)] }

/-! ## Concrete inputs used by individual claims -/

/-- C1 and C6: the 2-node chain `A - B`. -/
def exTwoNode : NXGraph :=
  { nodeList := [("A", {}), ("B", {})], edgeList := [("A", "B", ringAttr)] }

/-- C2: a device whose interface declares MTU 9000 and a description naming
the peer (forcing a `desc_hint` edge). -/
def exDescCfg : List (String × Parsed) :=
  [("R1", { interfaces := [("eth0", { mtu := some 9000, description := some "link to R2" })] }),
   ("R2", { interfaces := [] })]

/-- C3: a record with a non-normalized interface key. -/
def exRawCfg : List (String × Parsed) :=
  [("R1", { interfaces := [("Eth0", {})] })]

/-- C4: two devices declaring the same IP in the same VLAN (two declaration
orders). -/
def exDupA : NXGraph :=
  { nodeList :=
      [("N1", { interfaces := [("e0", { ip := some "10.0.0.5", vlan := some 10 })] }),
       ("N2", { interfaces := [("e0", { ip := some "10.0.0.5", vlan := some 10 })] })]
    edgeList := [] }

def exDupB : NXGraph :=
  { nodeList :=
      [("N2", { interfaces := [("e0", { ip := some "10.0.0.5", vlan := some 10 })] }),
       ("N1", { interfaces := [("e0", { ip := some "10.0.0.5", vlan := some 10 })] })]
    edgeList := [] }

/-- C5: two devices with interfaces on the same `/24` subnet and no
description hints. -/
def exSubnetCfg : List (String × Parsed) :=
  [("R1", { interfaces := [("eth0", { ip := some "10.0.0.1", mask := some "255.255.255.0" })] }),
   ("R2", { interfaces := [("eth0", { ip := some "10.0.0.2", mask := some "255.255.255.0" })] })]

/-- C7: two disjoint edges whose `f"{u}-{v}"` keys collide (hyphenated
hostnames), with different bandwidths. -/
def exColAttr : EdgeAttr :=
  { ifaces := [], mtu := 1500, bandwidth := 500, up := true, source := LinkSource.explicitLink }

def exCollision : NXGraph :=
  { nodeList := [("A-B", {}), ("C", {}), ("A", {}), ("B-C", {})]
    edgeList := [("A-B", "C", ringAttr), ("A", "B-C", exColAttr)] }

/-- C7 and C8 witnesses: a graph with nodes but no edges. -/
def exEdgeless : NXGraph :=
  { nodeList := [("A", {}), ("B", {})], edgeList := [] }

/-- C10: interfaces sharing an IP but with no VLAN, VLAN 0, or an empty IP. -/
def exVlanless : NXGraph :=
  { nodeList :=
      [("N1", { interfaces := [("e0", { ip := some "10.0.0.5" }),
                               ("e1", { ip := some "10.0.0.5", vlan := some 0 }),
                               ("e2", { ip := some "", vlan := some 10 })] }),
       ("N2", { interfaces := [("e0", { ip := some "10.0.0.5" }),
                               ("e1", { ip := some "10.0.0.5", vlan := some 0 }),
                               ("e2", { ip := some "", vlan := some 10 })] })]
    edgeList := [] }

/-! ## General helper lemmas -/

theorem alookup_append {α : Type} (l₁ l₂ : List (String × α)) (x : String) :
    alookup (l₁ ++ l₂) x = (alookup l₁ x).or (alookup l₂ x) := by
  induction l₁ with
  | nil => simp [alookup]
  | cons kv rest ih =>
      by_cases h : kv.1 = x
      · simp [alookup, h]
      · simp [alookup, h, ih]

theorem alookup_cons_ne {α : Type} (k : String) (v : α) (l : List (String × α))
    (x : String) (h : k ≠ x) : alookup ((k, v) :: l) x = alookup l x := by
  simp [alookup, h]

theorem filterMap_filter_eq {α β : Type} (f : α → Option β) (p : α → Bool) (l : List α)
    (h : ∀ x, p x = false → f x = none) :
    (l.filter p).filterMap f = l.filterMap f := by
  induction l with
  | nil => rfl
  | cons a t ih =>
      cases hp : p a with
      | true => simp [List.filter_cons, hp, List.filterMap_cons, ih]
      | false => simp [List.filter_cons, hp, List.filterMap_cons, h a hp, ih]

/-! ## Claim theorems -/

/-- C1: For every graph G, calling `simulate_link_failure(G, "A-B")` where
edge A-B exists sets that edge's `up` attribute to false and then reports a
partition exactly when the resulting graph has more than one connected
component; in particular, on a 2-node graph whose only edge is A-B the call
yields two singleton connected components and a partition warning.
The code CONTRADICTS this: `nx.connected_components` ignores the `up`
attribute, so on the 2-node chain the failed edge still connects the graph,
one component `{A, B}` results, and no partition warning is emitted. -/
theorem C1_two_node_failure_reports_no_partition :
    simulate_link_failure exTwoNode "A-B" =
      ({ exTwoNode with edgeList := [("A", "B", { ringAttr with up := false })] },
        [SimLog.linkDown "A" "B"]) ∧
    connected_components (simulate_link_failure exTwoNode "A-B").1 = [["A", "B"]] ∧
    SimLog.partitionWarn ∉ (simulate_link_failure exTwoNode "A-B").2 := by
  refine ⟨by decide, by decide, by decide⟩

/-- C5: build_topology applies subnet-overlap inference, matching on equal
network address and prefix length.  The code CONTRADICTS the subnet stage:
`utils.is_same_subnet` always raises `NameError` (`log` is undefined in
`utils.py`), the caller swallows the exception as "no match", and no
`source=subnet` edge is ever created — here two devices on the same /24
subnet (and with no description hints) end up with no edge at all, even
though their interfaces' networks are equal. -/
theorem C5_subnet_inference_never_links :
    (build_topology exSubnetCfg none).1.edgeList = [] ∧
    (build_topology exSubnetCfg none).1.nodeNames = ["R1", "R2"] ∧
    ipv4NetworkOf "10.0.0.1" "255.255.255.0" = ipv4NetworkOf "10.0.0.2" "255.255.255.0" := by
  refine ⟨by decide, by decide, by decide⟩

/-- C6: `simulate_link_failure` is atomic on error: a key that does not
split into exactly two parts around `-` yields the invalid-format error line
and leaves the graph untouched; a well-formed key naming an absent edge
yields the no-such-edge error line and leaves the graph untouched. -/
theorem C6_link_failure_error_atomicity :
    ∀ (G : NXGraph) (key : String),
      ((pySplit '-' key).length ≠ 2 →
        simulate_link_failure G key = (G, [SimLog.invalidFormat])) ∧
      (∀ a b, pySplit '-' key = [a, b] → G.hasEdge a b = false →
        simulate_link_failure G key = (G, [SimLog.noSuchEdge])) := by
  intro G key
  constructor
  · intro h
    unfold simulate_link_failure
    match hs : pySplit '-' key with
    | [] => rfl
    | [_] => rfl
    | [a, b] => exact absurd (by simp [hs]) h
    | _ :: _ :: _ :: _ => rfl
  · intro a b hs he
    unfold simulate_link_failure
    rw [hs]
    simp [he]

/-- C6 witness: the two error paths at concrete inputs. -/
theorem C6_link_failure_error_atomicity_witness :
    simulate_link_failure exTwoNode "A-B-C" = (exTwoNode, [SimLog.invalidFormat]) ∧
    simulate_link_failure exTwoNode "A-C" = (exTwoNode, [SimLog.noSuchEdge]) :=
  ⟨(C6_link_failure_error_atomicity exTwoNode "A-B-C").1 (by decide),
   (C6_link_failure_error_atomicity exTwoNode "A-C").2 "A" "C" (by decide) (by decide)⟩

/-! ### Issue classification lemmas (shared by the validator claims) -/

theorem dupGo_only_dup (v : Int) :
    ∀ (l : List (String × String × String)) (seen : List (String × String)) (i : Issue),
      i ∈ dupGo v l seen → isDupIP i = true := by
  intro l
  induction l with
  | nil => intro seen i h; simp [dupGo] at h
  | cons e rest ih =>
      intro seen i h
      unfold dupGo at h
      split at h
      · rcases List.mem_cons.1 h with h1 | h1
        · rw [h1]; rfl
        · exact ih _ _ h1
      · exact ih _ _ h

theorem mem_dupIssues_isDup (G : NXGraph) : ∀ i ∈ dupIssues G, isDupIP i = true := by
  intro i h
  rcases List.mem_flatMap.1 h with ⟨g, _, hg⟩
  exact dupGo_only_dup g.1 g.2 [] i hg

theorem mem_mtuIssues_shape (G : NXGraph) :
    ∀ i ∈ mtuIssues G, ∃ u a v b, i = Issue.mtuMismatch u a v b := by
  intro i h
  rcases List.mem_filterMap.1 h with ⟨e, _, hfe⟩
  split at hfe
  · split at hfe
    · exact ⟨_, _, _, _, (Option.some_inj.1 hfe).symm⟩
    · exact absurd hfe (by simp)
  · exact absurd hfe (by simp)

theorem mem_gwIssues_shape (G : NXGraph) :
    ∀ i ∈ gwIssues G, ∃ n g, i = Issue.badGateway n g := by
  intro i h
  rcases List.mem_filterMap.1 h with ⟨np, _, hfe⟩
  split at hfe
  · split at hfe
    · split at hfe
      · exact absurd hfe (by simp)
      · exact ⟨_, _, (Option.some_inj.1 hfe).symm⟩
    · exact absurd hfe (by simp)
  · exact absurd hfe (by simp)

theorem mem_loopIssues_shape (G : NXGraph) :
    ∀ i ∈ loopIssues G, ∃ c, i = Issue.networkLoop c := by
  intro i h
  rcases List.mem_map.1 h with ⟨c, _, hc⟩
  exact ⟨c, hc.symm⟩

/-- Only check 1 produces `DuplicateIP` issues. -/
theorem validate_filter_dup (G : NXGraph) :
    (validate_topology G).filter isDupIP = dupIssues G := by
  unfold validate_topology
  rw [List.filter_append, List.filter_append, List.filter_append]
  have h1 : (dupIssues G).filter isDupIP = dupIssues G :=
    List.filter_eq_self.mpr (mem_dupIssues_isDup G)
  have h2 : (mtuIssues G).filter isDupIP = [] :=
    List.filter_eq_nil_iff.mpr (fun i h => by
      rcases mem_mtuIssues_shape G i h with ⟨u, a, v, b, rfl⟩; simp [isDupIP])
  have h3 : (gwIssues G).filter isDupIP = [] :=
    List.filter_eq_nil_iff.mpr (fun i h => by
      rcases mem_gwIssues_shape G i h with ⟨n, g, rfl⟩; simp [isDupIP])
  have h4 : (loopIssues G).filter isDupIP = [] :=
    List.filter_eq_nil_iff.mpr (fun i h => by
      rcases mem_loopIssues_shape G i h with ⟨c, rfl⟩; simp [isDupIP])
  rw [h1, h2, h3, h4]
  simp

/-- Only check 4 produces `NetworkLoop` issues. -/
theorem validate_filter_loop (G : NXGraph) :
    (validate_topology G).filter isLoopIssue = loopIssues G := by
  unfold validate_topology
  rw [List.filter_append, List.filter_append, List.filter_append]
  have h4 : (loopIssues G).filter isLoopIssue = loopIssues G :=
    List.filter_eq_self.mpr (fun i h => by
      rcases mem_loopIssues_shape G i h with ⟨c, rfl⟩; rfl)
  have h2 : (mtuIssues G).filter isLoopIssue = [] :=
    List.filter_eq_nil_iff.mpr (fun i h => by
      rcases mem_mtuIssues_shape G i h with ⟨u, a, v, b, rfl⟩; simp [isLoopIssue])
  have h3 : (gwIssues G).filter isLoopIssue = [] :=
    List.filter_eq_nil_iff.mpr (fun i h => by
      rcases mem_gwIssues_shape G i h with ⟨n, g, rfl⟩; simp [isLoopIssue])
  have h1 : (dupIssues G).filter isLoopIssue = [] :=
    List.filter_eq_nil_iff.mpr (fun i h => by
      have hd := mem_dupIssues_isDup G i h
      intro hl
      cases i <;> simp_all [isDupIP, isLoopIssue])
  rw [h1, h2, h3, h4]
  simp

/-- C10: duplicate-IP detection considers an interface only when both its
`vlan` and `ip` are present and truthy: pruning every other interface
changes nothing, and a concrete graph whose interfaces share an IP with no
VLAN, VLAN 0, or an empty IP yields no issue at all. -/
theorem C10_duplicate_ip_requires_truthy_vlan_and_ip :
    (∀ G : NXGraph, (validate_topology G).filter isDupIP = dupIssues (pruneUntruthy G)) ∧
    validate_topology exVlanless = [] := by
  constructor
  · intro G
    rw [validate_filter_dup]
    have hpt : ∀ (n : String) (ii : String × Iface), truthyVlanIp ii.2 = false →
        vlanEntryOf n ii = none := by
      intro n ii hii
      unfold truthyVlanIp at hii
      unfold vlanEntryOf
      rcases hv : ii.2.vlan with _ | v <;> rcases hip : ii.2.ip with _ | ip <;>
        simp_all
    have hent : vlanEntries (pruneUntruthy G) = vlanEntries G := by
      unfold vlanEntries pruneUntruthy
      simp only
      induction G.nodeList with
      | nil => rfl
      | cons np rest ih =>
          simp only [List.map_cons, List.flatMap_cons, ih]
          congr 1
          exact filterMap_filter_eq _ _ np.2.interfaces (hpt np.1)
    unfold dupIssues vlanGroups
    rw [hent]
  · decide

/-! ### The duplicate-IP scan agrees with its spec description (C4) -/

theorem dupGo_eq_specDupGo (v : Int) :
    ∀ (l pre : List (String × String × String)) (seen : List (String × String)),
      (∀ ip, alookup seen ip =
        ((pre.find? fun e0 => decide (e0.2.2 = ip)).map fun e0 => e0.1 ++ ":" ++ e0.2.1)) →
      dupGo v l seen = specDupGo v pre l := by
  intro l
  induction l with
  | nil => intro pre seen _; rfl
  | cons e rest ih =>
      intro pre seen h
      have he := h e.2.2
      unfold dupGo specDupGo
      cases hf : pre.find? fun e0 => decide (e0.2.2 = e.2.2) with
      | some e0 =>
          rw [hf] at he
          simp only [Option.map_some'] at he
          rw [he]
          simp only [List.singleton_append, List.cons.injEq]
          refine ⟨trivial, ?_⟩
          apply ih
          intro ip
          rw [List.find?_append]
          by_cases hip : e.2.2 = ip
          · subst hip
            rw [hf]
            simp [h e.2.2, hf]
          · have : ([e].find? fun e0 => decide (e0.2.2 = ip)) = none := by
              simp [List.find?, hip]
            rw [this]
            rcases hpre : pre.find? fun e0 => decide (e0.2.2 = ip) with _ | e1
            · simp [h ip, hpre]
            · simp [h ip, hpre]
      | none =>
          rw [hf] at he
          simp only [Option.map_none'] at he
          rw [he]
          simp only [List.nil_append]
          apply ih
          intro ip
          rw [List.find?_append]
          by_cases hip : e.2.2 = ip
          · subst hip
            rw [hf]
            have : ([e].find? fun e0 => decide (e0.2.2 = e.2.2)) = some e := by
              simp [List.find?]
            rw [this]
            simp [alookup]
          · have : ([e].find? fun e0 => decide (e0.2.2 = ip)) = none := by
              simp [List.find?, hip]
            rw [this]
            rw [alookup_cons_ne _ _ _ _ hip]
            rcases hpre : pre.find? fun e0 => decide (e0.2.2 = ip) with _ | e1
            · simp [h ip, hpre]
            · simp [h ip, hpre]

/-- C4: in every graph, the `DuplicateIP` issues of `validate_topology` are
exactly the spec's description: within each VLAN group, the second and every
later occurrence of an already-seen IP yields one issue, in node/interface
iteration order, referencing the first-iterated occurrence as first owner
and the current one as second owner; on a graph where exactly two interfaces
share a VLAN and an IP this is exactly one issue naming both owners,
regardless of declaration order. -/
theorem C4_duplicate_ip_characterization :
    (∀ G : NXGraph, (validate_topology G).filter isDupIP = specDupIssues G) ∧
    validate_topology exDupA = [Issue.duplicateIP "10.0.0.5" 10 "N1:e0" "N2:e0"] ∧
    validate_topology exDupB = [Issue.duplicateIP "10.0.0.5" 10 "N2:e0" "N1:e0"] := by
  refine ⟨fun G => ?_, by decide, by decide⟩
  rw [validate_filter_dup]
  unfold dupIssues specDupIssues
  have hfun : (fun g : Int × List (String × String × String) => dupGo g.1 g.2 []) =
      fun g => specDupGo g.1 [] g.2 :=
    funext fun g => dupGo_eq_specDupGo g.1 g.2 [] [] (fun _ => rfl)
  rw [hfun]

/-! ### Dict-rebuild lemmas (C3) -/

theorem foldl_aset_append {α : Type} :
    ∀ (l acc : List (String × α)),
      (∀ kv ∈ l, alookup acc kv.1 = none) → (l.map Prod.fst).Nodup →
      l.foldl (fun d kv => aset d kv.1 kv.2) acc = acc ++ l := by
  intro l
  induction l with
  | nil => intro acc _ _; simp
  | cons kv rest ih =>
      intro acc hdisj hnd
      simp only [List.foldl_cons]
      have h0 : alookup acc kv.1 = none := hdisj kv (List.mem_cons_self kv rest)
      have ha : aset acc kv.1 kv.2 = acc ++ [(kv.1, kv.2)] := by
        unfold aset
        rw [h0]
        rfl
      have hhead : kv.1 ∉ rest.map Prod.fst := by
        simp only [List.map_cons, List.nodup_cons] at hnd
        exact hnd.1
      rw [ha, ih (acc ++ [(kv.1, kv.2)])]
      · simp
      · intro kv' h'
        rw [alookup_append, hdisj kv' (List.mem_cons_of_mem kv h')]
        have hne : kv.1 ≠ kv'.1 := by
          intro hcontra
          exact hhead (hcontra ▸ List.mem_map_of_mem Prod.fst h')
        simp [alookup, hne]
      · simp only [List.map_cons, List.nodup_cons] at hnd
        exact hnd.2

theorem adictOf_self {α : Type} (l : List (String × α)) (h : (l.map Prod.fst).Nodup) :
    adictOf l = l := by
  unfold adictOf
  rw [foldl_aset_append l [] (fun kv _ => rfl) h]
  simp

theorem normParsed_id (p : Parsed) (h : interfacesNormalized p) : normParsed p = p := by
  obtain ⟨hnd, hkeys⟩ := h
  unfold normParsed
  have hmap : p.interfaces.map (fun kv => (normKey kv.1, kv.2)) = p.interfaces := by
    have := List.map_congr_left (l := p.interfaces)
      (f := fun kv => (normKey kv.1, kv.2)) (g := id) ?_
    · rw [this, List.map_id]
    · intro kv hkv
      simp [hkeys kv hkv]
  rw [hmap, adictOf_self p.interfaces hnd]

/-- C3 (amended): `build_topology` replaces each record's `interfaces` dict
in place by a key-normalized copy; the `parsed_configs` mapping is unchanged
by the call precisely when every record's interface keys are already
stripped lowercase (and pairwise distinct, as dict keys are). -/
theorem C3_normalized_configs_unchanged :
    ∀ (cfgs : List (String × Parsed)) (lines : Option (List String)),
      (∀ hp ∈ cfgs, interfacesNormalized hp.2) →
      (build_topology cfgs lines).2 = cfgs := by
  intro cfgs lines h
  show cfgs.map (fun hp => (hp.1, normParsed hp.2)) = cfgs
  have hcong := List.map_congr_left (l := cfgs)
    (f := fun hp : String × Parsed => (hp.1, normParsed hp.2)) (g := id) ?_
  · rw [hcong, List.map_id]
  · intro hp hm
    simp [normParsed_id hp.2 (h hp hm)]

/-- C3 counterexample: the claim as stated — `parsed_configs` is unchanged
by `build_topology` — fails on a record with the interface key `"Eth0"`,
which the call rewrites to `"eth0"`. -/
theorem C3_counterexample_mutation :
    (build_topology exRawCfg none).2 ≠ exRawCfg := by decide

/-- C3 witness: on already-normalized records the post-call mapping is the
input. -/
theorem C3_normalized_configs_unchanged_witness :
    (build_topology exSubnetCfg none).2 = exSubnetCfg :=
  C3_normalized_configs_unchanged exSubnetCfg none (by decide)

/-! ### Node-set preservation lemmas (C9) -/

theorem map_fst_aset {α : Type} (d : List (String × α)) (k : String) (v : α) :
    (aset d k v).map Prod.fst = d.map Prod.fst ∨
    (aset d k v).map Prod.fst = d.map Prod.fst ++ [k] := by
  unfold aset
  split
  · left
    rw [List.map_map]
    apply List.map_congr_left
    intro kv _
    by_cases h : kv.1 = k
    · simp [h]
    · simp [h]
  · right
    simp

theorem mem_names_aset {α : Type} (d : List (String × α)) (k : String) (v : α) (x : String)
    (h : x ∈ d.map Prod.fst) : x ∈ (aset d k v).map Prod.fst := by
  rcases map_fst_aset d k v with he | he
  · rw [he]; exact h
  · rw [he]; exact List.mem_append_left _ h

theorem alookup_isSome_mem {α : Type} :
    ∀ (d : List (String × α)) (k : String), (alookup d k).isSome → k ∈ d.map Prod.fst := by
  intro d
  induction d with
  | nil => intro k h; simp [alookup] at h
  | cons kv rest ih =>
      intro k h
      unfold alookup at h
      by_cases he : kv.1 = k
      · simp [he]
      · rw [if_neg he] at h
        simp [ih k h]

theorem self_mem_names_aset {α : Type} (d : List (String × α)) (k : String) (v : α) :
    k ∈ (aset d k v).map Prod.fst := by
  unfold aset
  split
  · next hs =>
      have hm := alookup_isSome_mem d k hs
      rw [List.map_map]
      have : (Prod.fst ∘ fun kv : String × α => if kv.1 = k then (k, v) else kv) =
          Prod.fst := by
        funext kv
        by_cases h : kv.1 = k
        · simp [h]
        · simp [h]
      rw [this]
      exact hm
  · simp

theorem fold_addNode_mem :
    ∀ (cfgs : List (String × Parsed)) (G : NXGraph) (x : String),
      (x ∈ G.nodeNames ∨ x ∈ cfgs.map Prod.fst) →
      x ∈ (cfgs.foldl (fun g hp => g.addNode hp.1 hp.2) G).nodeNames := by
  intro cfgs
  induction cfgs with
  | nil => intro G x h; simpa using h
  | cons hp rest ih =>
      intro G x h
      simp only [List.foldl_cons]
      apply ih
      rcases h with h | h
      · exact Or.inl (mem_names_aset _ _ _ _ h)
      · rw [List.map_cons] at h
        rcases List.mem_cons.1 h with h | h
        · refine Or.inl ?_
          show x ∈ (aset G.nodeList hp.1 hp.2).map Prod.fst
          rw [h]
          exact self_mem_names_aset G.nodeList hp.1 hp.2
        · exact Or.inr h

theorem addEdge_names_mono (G : NXGraph) (u v : String) (a : EdgeAttr) (x : String)
    (h : x ∈ G.nodeNames) : x ∈ (G.addEdge u v a).nodeNames := by
  unfold NXGraph.addEdge
  dsimp only
  split <;>
    (unfold NXGraph.nodeNames at h ⊢
     dsimp only
     split <;> split <;> simp_all)

theorem addExplicit_names_mono (cfgs : List (String × Parsed)) (g : NXGraph)
    (l : String × String × String × String) (x : String) (h : x ∈ g.nodeNames) :
    x ∈ (addExplicit cfgs g l).nodeNames := by
  unfold addExplicit
  dsimp only
  split
  · split
    · exact h
    · split
      · exact h
      · exact addEdge_names_mono _ _ _ _ _ h
  · exact h

theorem inferPair_names_mono (cfgs : List (String × Parsed)) (g : NXGraph)
    (ab : String × String) (x : String) (h : x ∈ g.nodeNames) :
    x ∈ (inferPair cfgs g ab).nodeNames := by
  unfold inferPair
  dsimp only
  split
  · exact h
  · split
    · exact addEdge_names_mono _ _ _ _ _ h
    · split
      · exact addEdge_names_mono _ _ _ _ _ h
      · exact h

theorem foldl_names_mono {β : Type} (step : NXGraph → β → NXGraph)
    (hstep : ∀ g b x, x ∈ g.nodeNames → x ∈ (step g b).nodeNames) :
    ∀ (l : List β) (g : NXGraph) (x : String),
      x ∈ g.nodeNames → x ∈ (l.foldl step g).nodeNames := by
  intro l
  induction l with
  | nil => intro g x h; exact h
  | cons b rest ih => intro g x h; exact ih _ _ (hstep g b x h)

/-- C9: a link-file line lacking the `-` separator or a `:` in either
endpoint is skipped — parsing the file with the line removed gives the same
result (so the line never raises and never aborts the remaining lines) —
and every device of the records is a node of the built topology no matter
what the link lines contain. -/
theorem C9_malformed_link_lines_skipped :
    (∀ (pre post : List String) (bad : String), malformedLinkLine bad →
      parse_links_file (pre ++ bad :: post) = parse_links_file (pre ++ post)) ∧
    (∀ (cfgs : List (String × Parsed)) (lines : Option (List String)) (h : String),
      h ∈ cfgs.map Prod.fst → h ∈ (build_topology cfgs lines).1.nodeNames) := by
  constructor
  · intro pre post bad hbad
    obtain ⟨h1, h2, h3⟩ := hbad
    unfold parse_links_file
    rw [List.filterMap_append, List.filterMap_append, List.filterMap_cons]
    have hnone :
        (if pyStrip bad = "" then none
         else if pyStartsWith "#" (pyStrip bad) then none
         else if !(pyIn "-" (pyStrip bad)) then none
         else
           let lr := pySplitOnce (pyStrip bad) '-'
           let left := pyStrip lr.1
           let right := pyStrip lr.2
           if !(pyIn ":" left) || !(pyIn ":" right) then none
           else some (left, right)) = (none : Option (String × String)) := by
      rw [if_neg h1, if_neg (by simp [h2])]
      by_cases hd : pyIn "-" (pyStrip bad)
      · rw [if_neg (by simp [hd])]
        rcases h3 with h3 | h3 | h3
        · rw [h3] at hd; exact absurd hd (by simp)
        · simp [h3]
        · simp [h3]
      · simp [hd]
    rw [hnone]
  · intro cfgs lines h hmem
    unfold build_topology
    dsimp only
    apply foldl_names_mono _ (fun g b x hx => inferPair_names_mono _ g b x hx)
    apply foldl_names_mono _ (fun g b x hx => addExplicit_names_mono _ g b x hx)
    apply fold_addNode_mem
    right
    simpa using hmem

/-- C9 witness: skipping the concrete line `"R1 R2"`, and node preservation
on a concrete record set. -/
theorem C9_malformed_link_lines_skipped_witness :
    parse_links_file (["R1:g0 - R2:g0"] ++ "R1 R2" :: []) =
      parse_links_file (["R1:g0 - R2:g0"] ++ []) ∧
    "R1" ∈ (build_topology exSubnetCfg none).1.nodeNames :=
  ⟨C9_malformed_link_lines_skipped.1 ["R1:g0 - R2:g0"] [] "R1 R2" (by decide),
   C9_malformed_link_lines_skipped.2 exSubnetCfg none "R1" (by decide)⟩

/-! ### Edge-attribute invariant of the builder (C2) -/

theorem mem_keys_alookup_isSome {α : Type} :
    ∀ (d : List (String × α)) (k : String), k ∈ d.map Prod.fst → (alookup d k).isSome := by
  intro d
  induction d with
  | nil => intro k h; simp at h
  | cons kv rest ih =>
      intro k h
      rw [List.map_cons] at h
      unfold alookup
      by_cases he : kv.1 = k
      · simp [he]
      · rcases List.mem_cons.1 h with h | h
        · exact absurd h.symm he
        · simp [he, ih k h]

theorem aset_keys_nodup {α : Type} (d : List (String × α)) (k : String) (v : α)
    (h : (d.map Prod.fst).Nodup) : ((aset d k v).map Prod.fst).Nodup := by
  rcases map_fst_aset d k v with he | he
  · rw [he]; exact h
  · rw [he]
    have hk : k ∉ d.map Prod.fst := by
      intro hmem
      have hs := mem_keys_alookup_isSome d k hmem
      unfold aset at he
      rw [if_pos hs] at he
      have := congrArg List.length he
      simp at this
    simp [List.nodup_append, h, hk]

theorem adictOf_keys_nodup {α : Type} (l : List (String × α)) :
    ((adictOf l).map Prod.fst).Nodup := by
  unfold adictOf
  suffices hgen : ∀ (acc : List (String × α)), ((acc.map Prod.fst).Nodup) →
      ((l.foldl (fun d kv => aset d kv.1 kv.2) acc).map Prod.fst).Nodup by
    exact hgen [] (by simp)
  induction l with
  | nil => intro acc h; exact h
  | cons kv rest ih =>
      intro acc h
      simp only [List.foldl_cons]
      exact ih _ (aset_keys_nodup acc kv.1 kv.2 h)

theorem alookup_map_value {α β : Type} (f : α → β) :
    ∀ (l : List (String × α)) (x : String),
      alookup (l.map fun hp => (hp.1, f hp.2)) x = (alookup l x).map f := by
  intro l
  induction l with
  | nil => intro x; rfl
  | cons kv rest ih =>
      intro x
      unfold alookup
      by_cases he : kv.1 = x
      · simp [he]
      · simp [he, ih x]

theorem alookup_of_mem_nodup {α : Type} :
    ∀ (d : List (String × α)) (k : String) (v : α),
      (k, v) ∈ d → (d.map Prod.fst).Nodup → alookup d k = some v := by
  intro d
  induction d with
  | nil => intro k v h _; simp at h
  | cons kv rest ih =>
      intro k v h hnd
      rw [List.map_cons, List.nodup_cons] at hnd
      rcases List.mem_cons.1 h with h | h
      · rw [← h]
        simp [alookup]
      · have hk : kv.1 ≠ k := by
          intro hc
          exact hnd.1 (hc ▸ List.mem_map_of_mem Prod.fst h)
        rw [alookup_cons_ne _ _ _ _ hk]
        exact ih k v h hnd.2

/-- The records stored in the builder's (mutated) config map always have
nodup interface keys. -/
theorem normalized_interfaces_nodup (cfgs0 : List (String × Parsed)) (a : String) :
    ((interfacesOf (cfgs0.map fun hp => (hp.1, normParsed hp.2)) a).map Prod.fst).Nodup := by
  unfold interfacesOf
  rw [alookup_map_value]
  cases alookup cfgs0 a with
  | none => simp
  | some p0 => exact adictOf_keys_nodup _

theorem subnetCall_not_ok (ifd ifdb : Iface) (b : Bool) :
    subnetCall ifd ifdb ≠ Except.ok b := by
  unfold subnetCall is_same_subnet
  split <;> simp

theorem subnetScan_none (pa pb : Parsed) : subnetScan pa pb = none := by
  unfold subnetScan
  rw [List.findSome?_eq_none_iff]
  intro ai _
  split
  · rw [List.findSome?_eq_none_iff]
    intro bi _
    split
    · split
      · next hok => exact absurd hok (subnetCall_not_ok _ _ _)
      · rfl
    · rfl
  · rfl

theorem descScan_mem (pa : Parsed) (b : String) (ai : String × Iface)
    (h : descScan pa b = some ai) : ai ∈ pa.interfaces := by
  unfold descScan at h
  rcases List.exists_of_findSome?_eq_some h with ⟨x, hx, hfx⟩
  dsimp only at hfx
  split at hfx
  · cases hfx
    exact hx
  · exact absurd hfx (by simp)

theorem addEdge_edges_pres (P : EdgeAttr → Prop) (g : NXGraph) (u v : String)
    (attr : EdgeAttr) (hold : ∀ e ∈ g.edgeList, P e.2.2) (hnew : P attr) :
    ∀ e ∈ (g.addEdge u v attr).edgeList, P e.2.2 := by
  unfold NXGraph.addEdge
  dsimp only
  split
  · intro e he
    rcases List.mem_map.1 he with ⟨e0, he0, heq⟩
    by_cases hc : (e0.1 = u ∧ e0.2.1 = v) ∨ (e0.1 = v ∧ e0.2.1 = u)
    · rw [if_pos hc] at heq
      rw [← heq]
      exact hnew
    · rw [if_neg hc] at heq
      rw [← heq]
      exact hold e0 he0
  · intro e he
    rcases List.mem_append.1 he with he | he
    · exact hold e he
    · rcases List.mem_singleton.1 he with rfl
      exact hnew

theorem addExplicit_edges_pres (cfgs : List (String × Parsed)) (g : NXGraph)
    (l : String × String × String × String)
    (hold : ∀ e ∈ g.edgeList, edgeOK cfgs e.2.2) :
    ∀ e ∈ (addExplicit cfgs g l).edgeList, edgeOK cfgs e.2.2 := by
  unfold addExplicit
  dsimp only
  split
  · split
    · exact hold
    · split
      · exact hold
      · apply addEdge_edges_pres _ _ _ _ _ hold
        exact ⟨fun _ => ⟨l.1, l.2.1, l.2.2.1, l.2.2.2, rfl, rfl, rfl⟩,
               fun hc => LinkSource.noConfusion hc,
               fun hc => LinkSource.noConfusion hc⟩
  · exact hold

theorem inferPair_edges_pres (cfgs0 : List (String × Parsed)) (g : NXGraph)
    (ab : String × String)
    (hold : ∀ e ∈ g.edgeList,
      edgeOK (cfgs0.map fun hp => (hp.1, normParsed hp.2)) e.2.2) :
    ∀ e ∈ (inferPair (cfgs0.map fun hp => (hp.1, normParsed hp.2)) g ab).edgeList,
      edgeOK (cfgs0.map fun hp => (hp.1, normParsed hp.2)) e.2.2 := by
  unfold inferPair
  dsimp only
  split
  · exact hold
  · split
    · next ai hscan =>
        apply addEdge_edges_pres _ _ _ _ _ hold
        have hmem := descScan_mem _ _ _ hscan
        have hlk : alookup (interfacesOf (cfgs0.map fun hp => (hp.1, normParsed hp.2)) ab.1)
            ai.1 = some ai.2 :=
          alookup_of_mem_nodup _ _ _ hmem (normalized_interfaces_nodup cfgs0 ab.1)
        refine ⟨fun hc => LinkSource.noConfusion hc, fun _ => ⟨ab.1, ai.1, rfl, ?_, ?_⟩,
                fun hc => LinkSource.noConfusion hc⟩
        · unfold ifaceMtu
          rw [hlk]
          rfl
        · unfold ifaceBw
          rw [hlk]
          rfl
    · split
      · next r hscan => exact absurd hscan (by rw [subnetScan_none]; simp)
      · exact hold

theorem foldl_addNode_edges :
    ∀ (l : List (String × Parsed)) (g : NXGraph),
      (l.foldl (fun g hp => g.addNode hp.1 hp.2) g).edgeList = g.edgeList := by
  intro l
  induction l with
  | nil => intro g; rfl
  | cons hp rest ih =>
      intro g
      simp only [List.foldl_cons]
      rw [ih]
      rfl

theorem foldl_edges_pres {β : Type} (P : EdgeAttr → Prop) (step : NXGraph → β → NXGraph)
    (hstep : ∀ g b, (∀ e ∈ g.edgeList, P e.2.2) → ∀ e ∈ (step g b).edgeList, P e.2.2) :
    ∀ (l : List β) (g : NXGraph), (∀ e ∈ g.edgeList, P e.2.2) →
      ∀ e ∈ (l.foldl step g).edgeList, P e.2.2 := by
  intro l
  induction l with
  | nil => intro g h; exact h
  | cons b rest ih => intro g h; exact ih _ (hstep g b h)

/-- C2 (amended): every edge of the built topology carries attributes by the
rule actually implemented — the explicit-link min rule, the desc-hint rule
with the 1500 MTU cap, and no subnet edges at all. -/
theorem C2_edge_attribute_rule :
    ∀ (cfgs : List (String × Parsed)) (lines : Option (List String)),
      ∀ e ∈ (build_topology cfgs lines).1.edgeList,
        edgeOK (build_topology cfgs lines).2 e.2.2 := by
  intro cfgs lines
  unfold build_topology
  dsimp only
  apply foldl_edges_pres _ _ (fun g b h => inferPair_edges_pres cfgs g b h)
  apply foldl_edges_pres _ _ (fun g b h => addExplicit_edges_pres _ g b h)
  intro e he
  rw [foldl_addNode_edges] at he
  simp at he

/-- C2 witness: the rule applied to the concrete desc-hint edge built from
`exDescCfg` (interface MTU 9000, edge MTU capped to 1500). -/
theorem C2_edge_attribute_rule_witness :
    edgeOK (build_topology exDescCfg none).2
      ({ ifaces := ["R1:eth0"], mtu := 1500, bandwidth := 1000, up := true,
         source := LinkSource.desc_hint } : EdgeAttr) :=
  C2_edge_attribute_rule exDescCfg none
    ("R1", "R2",
      { ifaces := ["R1:eth0"], mtu := 1500, bandwidth := 1000, up := true,
        source := LinkSource.desc_hint }) (by decide)

/-- C2 counterexample: the claim as stated — edge `mtu` equals the plain
minimum over the constituent interfaces — fails on the desc-hint edge whose
single interface declares MTU 9000: the edge gets `min(9000, 1500) = 1500`. -/
theorem C2_counterexample_desc_hint_cap : ¬ claimC2Holds exDescCfg none := by
  decide

/-! ### Resiliency score (C7) -/

theorem neighborsA_nil (G : NXGraph) (h : G.edgeList = []) (z : String) :
    G.neighborsA z = [] := by
  unfold NXGraph.neighborsA
  rw [h]
  rfl

theorem edgesIterGo_nil (G : NXGraph) (h : G.edgeList = []) :
    ∀ (ns seen : List String), G.edgesIterGo ns seen = [] := by
  intro ns
  induction ns with
  | nil => intro seen; rfl
  | cons n rest ih =>
      intro seen
      unfold NXGraph.edgesIterGo
      rw [neighborsA_nil G h, ih]
      rfl

theorem degree_nil (G : NXGraph) (h : G.edgeList = []) (z : String) : G.degree z = 0 := by
  unfold NXGraph.degree
  rw [h]
  rfl

unseal Rat.add Rat.mul Rat.inv Rat.sub in
theorem py_round2_25 : py_round2 25 = 25 := by
  decide

/-- The `links` dict is one entry per edge when the string keys are
distinct. -/
theorem linksOf_of_distinct (G : NXGraph) (demand : ℚ) (h : linkKeysDistinct G) :
    linksOf G demand = (G.edgesIter).map fun e =>
      (e.1 ++ "-" ++ e.2.1, linkInfoOf (linkLoadOf G demand) e.1 e.2.1 e.2.2) := by
  unfold linksOf
  have hfold : ∀ (l : List (String × String × EdgeAttr)) (d : List (String × LinkInfo)),
      l.foldl (fun d e => aset d (e.1 ++ "-" ++ e.2.1)
        (linkInfoOf (linkLoadOf G demand) e.1 e.2.1 e.2.2)) d =
      (l.map fun e => ((e.1 ++ "-" ++ e.2.1, linkInfoOf (linkLoadOf G demand) e.1 e.2.1 e.2.2)
        : String × LinkInfo)).foldl (fun d kv => aset d kv.1 kv.2) d := by
    intro l
    induction l with
    | nil => intro d; rfl
    | cons e rest ih => intro d; simp only [List.foldl_cons, List.map_cons, ih]
  rw [hfold]
  rw [foldl_aset_append _ [] (fun kv _ => rfl) ?_]
  · simp
  · rw [List.map_map]
    unfold linkKeysDistinct at h
    convert h using 2

/-- C7 (amended): with zero edges the resiliency score is exactly 25; and
whenever the `f"{u}-{v}"` link keys are pairwise distinct (any graph whose
node names contain no hyphen), the score equals the claimed formula
`round2(50·frac(deg>1) + 50·mean(max(0, 1−util)))` with the 25 default; on
key collisions the later edge overwrites the earlier entry instead. -/
theorem C7_resiliency_score :
    (∀ G : NXGraph, G.edgeList = [] → analyze_network_resiliency G = 25) ∧
    (∀ G : NXGraph, linkKeysDistinct G → analyze_network_resiliency G = specResiliencyScore G) := by
  constructor
  · intro G h
    unfold analyze_network_resiliency check_bandwidth
    dsimp only
    have hiter : G.edgesIter = [] := edgesIterGo_nil G h _ _
    have hlinks : linksOf G 10 = [] := by
      unfold linksOf
      dsimp only
      rw [hiter]
      rfl
    rw [hlinks]
    have hdeg : (G.nodeNames.map G.degree).filter (fun d => decide (d > 1)) = [] := by
      rw [List.filter_eq_nil_iff]
      intro d hd
      rcases List.mem_map.1 hd with ⟨z, _, rfl⟩
      rw [degree_nil G h]
      decide
    rw [hdeg]
    simp only [List.length_nil, List.map_nil, Nat.cast_zero, zero_div, zero_mul,
      if_pos rfl, zero_add]
    exact py_round2_25
  · intro G hkeys
    unfold analyze_network_resiliency check_bandwidth specResiliencyScore
    dsimp only
    rw [linksOf_of_distinct G 10 hkeys, List.map_map, Function.comp_def]
    dsimp only
    congr 1
    by_cases hne : G.edgesIter = []
    · rw [hne]
      simp only [List.map_nil, List.length_nil, if_pos rfl]
      by_cases hn0 : G.nodeList.length = 0
      · have hnn : G.nodeNames = [] := by
          simp [NXGraph.nodeNames, List.length_eq_zero.1 hn0]
        rw [hnn, hn0]
        norm_num
      · rw [if_neg hn0, if_neg hn0]
        simp only [if_true]
        ring
    · have hlen0 : ¬ ((G.edgesIter.map fun e =>
          max 0 (1 - (linkInfoOf (linkLoadOf G 10) e.1 e.2.1 e.2.2).utilization)).length = 0) := by
        rw [List.length_map]
        exact fun hc => hne (List.length_eq_zero.1 hc)
      rw [if_neg hlen0, if_neg hne, List.length_map]
      by_cases hn0 : G.nodeList.length = 0
      · have hnn : G.nodeNames = [] := by
          simp [NXGraph.nodeNames, List.length_eq_zero.1 hn0]
        rw [hnn, hn0]
        simp
        ring
      · rw [if_neg hn0, if_neg hn0]
        ring

/-- C7 witness: the zero-edge graph scores exactly 25, and a concrete
distinct-key graph matches the formula. -/
theorem C7_resiliency_score_witness :
    analyze_network_resiliency exEdgeless = 25 ∧
    analyze_network_resiliency exTwoNode = specResiliencyScore exTwoNode :=
  ⟨C7_resiliency_score.1 exEdgeless rfl, C7_resiliency_score.2 exTwoNode (by decide)⟩

unseal Rat.add Rat.mul Rat.inv Rat.sub in
/-- C7 counterexample: with the hyphen-collision graph the code returns 48
(only the surviving `links` entry contributes headroom), while the claim's
formula over all edges gives 48.5. -/
theorem C7_counterexample_key_collision :
    analyze_network_resiliency exCollision = 48 ∧
    specResiliencyScore exCollision = 97 / 2 ∧
    analyze_network_resiliency exCollision ≠ specResiliencyScore exCollision := by
  refine ⟨by decide, by decide, by decide⟩

/-! ### Cycle-basis soundness on forests (C8)

Paton's algorithm emits a cycle only on finding a non-tree edge between two
visited nodes; on an acyclic graph no such edge can exist (every edge is a
bridge), so the basis is empty.  `CBInv` is the invariant carried through
`cbRun`/`processNbrs`. -/

theorem epairMem_symm {x y : String} {ends : List (String × String)}
    (h : epairMem x y ends) : epairMem y x ends := h.elim Or.inr Or.inl

theorem adjOf_props (ends : List (String × String)) (z : String)
    (hsl : ∀ e ∈ ends, e.1 ≠ e.2) :
    ∀ n ∈ adjOf ends z, epairMem z n ends ∧ n ≠ z := by
  intro n hn
  rcases List.mem_filterMap.1 hn with ⟨e, he, hfe⟩
  by_cases h1 : e.1 = z
  · rw [if_pos h1] at hfe
    have h2 : e.2 = n := Option.some_inj.1 hfe
    have hez : e = (z, n) := by
      rcases e with ⟨u, v⟩
      simp only at h1 h2
      rw [h1, h2]
    constructor
    · exact Or.inl (hez ▸ he)
    · intro hc
      exact hsl e he (by rw [hez, hc])
  · rw [if_neg h1] at hfe
    by_cases h2 : e.2 = z
    · rw [if_pos h2] at hfe
      have h3 : e.1 = n := Option.some_inj.1 hfe
      have hez : e = (n, z) := by
        rcases e with ⟨u, v⟩
        simp only at h2 h3
        rw [h2, h3]
      constructor
      · exact Or.inr (hez ▸ he)
      · intro hc
        exact hsl e he (by rw [hez, hc])
    · rw [if_neg h2] at hfe
      exact absurd hfe (by simp)

theorem adjOf_nodup (ends : List (String × String)) (z : String)
    (hwf : ends.Pairwise upairNe) : (adjOf ends z).Nodup := by
  induction ends with
  | nil => exact List.nodup_nil
  | cons e rest ih =>
      rw [List.pairwise_cons] at hwf
      have htail := ih hwf.2
      have hfresh : ∀ n, (if e.1 = z then some e.2 else if e.2 = z then some e.1 else none)
          = some n → n ∉ adjOf rest z := by
        intro n hfe hmem
        rcases List.mem_filterMap.1 hmem with ⟨f, hf, hff⟩
        have hef := hwf.1 f hf
        by_cases h1 : e.1 = z
        · rw [if_pos h1] at hfe
          have h2 : e.2 = n := Option.some_inj.1 hfe
          by_cases g1 : f.1 = z
          · rw [if_pos g1] at hff
            have g2 : f.2 = n := Option.some_inj.1 hff
            exact hef.1 ⟨h1.trans g1.symm, h2.trans g2.symm⟩
          · rw [if_neg g1] at hff
            by_cases g2 : f.2 = z
            · rw [if_pos g2] at hff
              have g3 : f.1 = n := Option.some_inj.1 hff
              exact hef.2 ⟨h1.trans g2.symm, h2.trans g3.symm⟩
            · rw [if_neg g2] at hff
              exact absurd hff (by simp)
        · rw [if_neg h1] at hfe
          by_cases h2 : e.2 = z
          · rw [if_pos h2] at hfe
            have h3 : e.1 = n := Option.some_inj.1 hfe
            by_cases g1 : f.1 = z
            · rw [if_pos g1] at hff
              have g2 : f.2 = n := Option.some_inj.1 hff
              exact hef.2 ⟨h3.trans g2.symm, h2.trans g1.symm⟩
            · rw [if_neg g1] at hff
              by_cases g2 : f.2 = z
              · rw [if_pos g2] at hff
                have g3 : f.1 = n := Option.some_inj.1 hff
                exact hef.1 ⟨h3.trans g3.symm, h2.trans g2.symm⟩
              · rw [if_neg g2] at hff
                exact absurd hff (by simp)
          · rw [if_neg h2] at hfe
            exact absurd hfe (by simp)
      unfold adjOf
      rw [List.filterMap_cons]
      split
      · exact htail
      · next n hfe =>
          exact List.nodup_cons.2 ⟨hfresh n hfe, htail⟩

theorem treeAdj_cons {pred : List (String × String)} {k w x y : String}
    (hfresh : alookup pred k = none) (h : treeAdj pred x y) :
    treeAdj ((k, w) :: pred) x y := by
  obtain ⟨hne, hlk⟩ := h
  refine ⟨hne, ?_⟩
  rcases hlk with h | h
  · have hxk : x ≠ k := by
      intro hc
      rw [hc, hfresh] at h
      cases h
    exact Or.inl (by rw [alookup_cons_ne _ _ _ _ (Ne.symm hxk)]; exact h)
  · have hyk : y ≠ k := by
      intro hc
      rw [hc, hfresh] at h
      cases h
    exact Or.inr (by rw [alookup_cons_ne _ _ _ _ (Ne.symm hyk)]; exact h)

theorem rtg_treeAdj_cons {pred : List (String × String)} {k w x y : String}
    (hfresh : alookup pred k = none)
    (h : Relation.ReflTransGen (treeAdj pred) x y) :
    Relation.ReflTransGen (treeAdj ((k, w) :: pred)) x y :=
  Relation.ReflTransGen.mono (fun _ _ hs => treeAdj_cons hfresh hs) h

theorem rtg_to_reachable {H : SimpleGraph String} {pred : List (String × String)}
    (hsub : ∀ x y, treeAdj pred x y → H.Adj x y) {a b : String}
    (h : Relation.ReflTransGen (treeAdj pred) a b) : H.Reachable a b := by
  induction h with
  | refl => exact SimpleGraph.Reachable.refl a
  | tail _ hstep ih => exact ih.trans (hsub _ _ hstep).reachable

/-- A non-tree edge between two already-visited nodes contradicts
acyclicity: the edge plus the spanning-tree paths through the root witness
reachability with the edge removed, so it is no bridge. -/
theorem cycle_branch_false {ends : List (String × String)} {root : String}
    {pred : List (String × String)} {used : List (String × List String)}
    {stack : List String} {z nbr : String}
    (hacy : (toSimple ends).IsAcyclic)
    (inv : CBInv ends root pred used stack)
    (hzdom : (alookup pred z).isSome)
    (hnbrdom : (alookup pred nbr).isSome)
    (hedge : epairMem z nbr ends)
    (hne : nbr ≠ z)
    (hpz : alookup pred z ≠ some nbr)
    (hpn : alookup pred nbr ≠ some z) : False := by
  have hadj : (toSimple ends).Adj z nbr := ⟨fun hc => hne hc.symm, hedge⟩
  have hbridge := (SimpleGraph.isAcyclic_iff_forall_edge_isBridge.mp hacy)
    ((SimpleGraph.mem_edgeSet (toSimple ends)).mpr hadj)
  rw [SimpleGraph.isBridge_iff] at hbridge
  apply hbridge.2
  have hstep : ∀ x y, treeAdj pred x y →
      ((toSimple ends) \ SimpleGraph.fromEdgeSet {s(z, nbr)}).Adj x y := by
    intro x y hxy
    obtain ⟨hxyne, hlk⟩ := hxy
    have hedgexy : epairMem x y ends := by
      rcases hlk with h | h
      · rcases inv.pred_edge x y h with he | he
        · exact absurd he hxyne
        · exact he
      · rcases inv.pred_edge y x h with he | he
        · exact absurd he.symm hxyne
        · exact epairMem_symm he
    rw [SimpleGraph.sdiff_adj]
    refine ⟨⟨hxyne, hedgexy⟩, ?_⟩
    rw [SimpleGraph.fromEdgeSet_adj]
    rintro ⟨hmem, -⟩
    rw [Set.mem_singleton_iff] at hmem
    rcases Sym2.eq_iff.mp hmem with ⟨hx, hy⟩ | ⟨hx, hy⟩
    · subst hx
      subst hy
      rcases hlk with h | h
      · exact hpz h
      · exact hpn h
    · subst hx
      subst hy
      rcases hlk with h | h
      · exact hpn h
      · exact hpz h
  have hreach : ∀ x, (alookup pred x).isSome →
      ((toSimple ends) \ SimpleGraph.fromEdgeSet {s(z, nbr)}).Reachable x root :=
    fun x hx => rtg_to_reachable hstep (inv.reach x hx)
  exact (hreach z hzdom).trans (hreach nbr hnbrdom).symm

/-- Processing the adjacency of a popped node preserves the invariant and,
on an acyclic graph, emits no cycle. -/
theorem processNbrs_sound (ends : List (String × String)) (root z : String)
    (hacy : (toSimple ends).IsAcyclic) (zused : List String) :
    ∀ (nbrs : List String) (st : CBSt) (stack : List String),
      CBInv ends root st.pred st.used stack →
      (alookup st.pred z).isSome →
      z ∉ stack →
      (∀ n ∈ nbrs, epairMem z n ends ∧ n ≠ z) →
      nbrs.Nodup →
      (∀ n ∈ nbrs, alookup st.pred n ≠ some z) →
      (∀ w, alookup st.pred z = some w → w ≠ z → w ∈ zused) →
      (processNbrs z zused nbrs st stack).1.cycles = st.cycles ∧
      CBInv ends root (processNbrs z zused nbrs st stack).1.pred
        (processNbrs z zused nbrs st stack).1.used (processNbrs z zused nbrs st stack).2 := by
  intro nbrs
  induction nbrs with
  | nil =>
      intro st stack hinv _ _ _ _ _ _
      exact ⟨rfl, hinv⟩
  | cons nbr rest ih =>
      intro st stack hinv hz hzstack hsub hnd hnoz hzu
      have hprops := hsub nbr (List.mem_cons_self _ _)
      have hrest : ∀ n ∈ rest, epairMem z n ends ∧ n ≠ z :=
        fun n hn => hsub n (List.mem_cons_of_mem _ hn)
      rw [List.nodup_cons] at hnd
      cases hlk : alookup st.used nbr with
      | none =>
          have hfreshp : alookup st.pred nbr = none := by
            rcases hh : alookup st.pred nbr with _ | v
            · rfl
            · have hs := (hinv.align nbr).1 (by rw [hh]; rfl)
              rw [hlk] at hs
              cases hs
          have hstep : processNbrs z zused (nbr :: rest) st stack =
              processNbrs z zused rest
                { st with pred := (nbr, z) :: st.pred, used := (nbr, [z]) :: st.used }
                (nbr :: stack) := by
            conv_lhs => unfold processNbrs
            rw [hlk]
          rw [hstep]
          have hnbrz : nbr ≠ z := hprops.2
          have hinv2 : CBInv ends root ((nbr, z) :: st.pred) ((nbr, [z]) :: st.used)
              (nbr :: stack) := by
            refine
              { align := ?_, pred_edge := ?_, self_root := ?_, pred_used := ?_,
                pred_dom := ?_, reach := ?_, stack_dom := ?_, stack_nodup := ?_,
                pred_not_stack := ?_, stack_target := ?_ }
            · intro x
              by_cases hx : nbr = x
              · simp [alookup, hx]
              · rw [alookup_cons_ne _ _ _ _ hx, alookup_cons_ne _ _ _ _ hx]
                exact hinv.align x
            · intro x y h
              by_cases hx : nbr = x
              · subst hx
                rw [show alookup ((nbr, z) :: st.pred) nbr = some z by simp [alookup]] at h
                have hy : y = z := (Option.some_inj.1 h).symm
                subst hy
                exact Or.inr (epairMem_symm hprops.1)
              · rw [alookup_cons_ne _ _ _ _ hx] at h
                exact hinv.pred_edge x y h
            · intro x h
              by_cases hx : nbr = x
              · subst hx
                rw [show alookup ((nbr, z) :: st.pred) nbr = some z by simp [alookup]] at h
                exact absurd (Option.some_inj.1 h) (Ne.symm hnbrz)
              · rw [alookup_cons_ne _ _ _ _ hx] at h
                exact hinv.self_root x h
            · intro x y h hxy
              by_cases hx : nbr = x
              · subst hx
                rw [show alookup ((nbr, z) :: st.pred) nbr = some z by simp [alookup]] at h
                have hy : z = y := Option.some_inj.1 h
                subst hy
                exact ⟨[z], by simp [alookup], by simp⟩
              · rw [alookup_cons_ne _ _ _ _ hx] at h
                obtain ⟨l, hl, hyl⟩ := hinv.pred_used x y h hxy
                exact ⟨l, by rw [alookup_cons_ne _ _ _ _ hx]; exact hl, hyl⟩
            · intro x y h
              by_cases hx : nbr = x
              · subst hx
                rw [show alookup ((nbr, z) :: st.pred) nbr = some z by simp [alookup]] at h
                have hy : z = y := Option.some_inj.1 h
                subst hy
                rw [alookup_cons_ne _ _ _ _ hnbrz]
                exact hz
              · rw [alookup_cons_ne _ _ _ _ hx] at h
                have hy := hinv.pred_dom x y h
                have hyn : nbr ≠ y := by
                  intro hc
                  rw [← hc, hfreshp] at hy
                  cases hy
                rw [alookup_cons_ne _ _ _ _ hyn]
                exact hy
            · intro x hx
              by_cases hx0 : nbr = x
              · subst hx0
                refine Relation.ReflTransGen.head
                  ⟨hnbrz, Or.inl (by simp [alookup])⟩ ?_
                exact rtg_treeAdj_cons hfreshp (hinv.reach z hz)
              · rw [alookup_cons_ne _ _ _ _ hx0] at hx
                exact rtg_treeAdj_cons hfreshp (hinv.reach x hx)
            · intro s hs
              rcases List.mem_cons.1 hs with hs | hs
              · subst hs
                simp [alookup]
              · have hd := hinv.stack_dom s hs
                have hsn : nbr ≠ s := by
                  intro hc
                  rw [← hc, hfreshp] at hd
                  cases hd
                rw [alookup_cons_ne _ _ _ _ hsn]
                exact hd
            · refine List.nodup_cons.2 ⟨?_, hinv.stack_nodup⟩
              intro hc
              have hd := hinv.stack_dom nbr hc
              rw [hfreshp] at hd
              cases hd
            · intro x y h hxy
              by_cases hx : nbr = x
              · subst hx
                rw [show alookup ((nbr, z) :: st.pred) nbr = some z by simp [alookup]] at h
                have hy : z = y := Option.some_inj.1 h
                subst hy
                intro hc
                rcases List.mem_cons.1 hc with hc | hc
                · exact hnbrz hc.symm
                · exact hzstack hc
              · rw [alookup_cons_ne _ _ _ _ hx] at h
                have hnot := hinv.pred_not_stack x y h hxy
                have hyd := hinv.pred_dom x y h
                have hyn : y ≠ nbr := by
                  intro hc
                  rw [hc, hfreshp] at hyd
                  cases hyd
                intro hc
                rcases List.mem_cons.1 hc with hc | hc
                · exact hyn hc
                · exact hnot hc
            · intro s hs n hn
              rcases List.mem_cons.1 hs with hs | hs
              · by_cases hx : nbr = n
                · rw [hs]
                  exact hx.symm
                · rw [alookup_cons_ne _ _ _ _ hx] at hn
                  have hd := hinv.pred_dom n s hn
                  rw [hs, hfreshp] at hd
                  cases hd
              · by_cases hx : nbr = n
                · subst hx
                  rw [show alookup ((nbr, z) :: st.pred) nbr = some z by simp [alookup]] at hn
                  have hzs : z = s := Option.some_inj.1 hn
                  exact absurd (hzs ▸ hs) hzstack
                · rw [alookup_cons_ne _ _ _ _ hx] at hn
                  exact hinv.stack_target s hs n hn
          apply ih _ _ hinv2
          · rw [alookup_cons_ne _ _ _ _ hnbrz]
            exact hz
          · intro hc
            rcases List.mem_cons.1 hc with hc | hc
            · exact hnbrz hc.symm
            · exact hzstack hc
          · exact hrest
          · exact hnd.2
          · intro n hn
            have hne : nbr ≠ n := fun hc => hnd.1 (hc ▸ hn)
            rw [alookup_cons_ne _ _ _ _ hne]
            exact hnoz n (List.mem_cons_of_mem _ hn)
          · intro w hw
            rw [alookup_cons_ne _ _ _ _ hnbrz] at hw
            exact hzu w hw
      | some l =>
          by_cases hmem : nbr ∈ zused
          · have hstep : processNbrs z zused (nbr :: rest) st stack =
                processNbrs z zused rest st stack := by
              conv_lhs => unfold processNbrs
              rw [hlk]
              simp only [if_neg hprops.2, if_pos hmem]
            rw [hstep]
            exact ih st stack hinv hz hzstack hrest hnd.2
              (fun n hn => hnoz n (List.mem_cons_of_mem _ hn)) hzu
          · exfalso
            have hnbrdom : (alookup st.pred nbr).isSome :=
              (hinv.align nbr).2 (by rw [hlk]; rfl)
            have hpz : alookup st.pred z ≠ some nbr := by
              intro hc
              exact hmem (hzu nbr hc hprops.2)
            exact cycle_branch_false hacy hinv hz hnbrdom hprops.1 hprops.2 hpz
              (hnoz nbr (List.mem_cons_self _ _))

/-- The driver of Paton's algorithm never emits a cycle on an acyclic
graph: either we are at the very first step (empty stack, empty forest) or
some component invariant holds, and both are maintained. -/
theorem cbRun_sound (ends : List (String × String))
    (hacy : (toSimple ends).IsAcyclic)
    (hsl : ∀ e ∈ ends, e.1 ≠ e.2)
    (hwf : ends.Pairwise upairNe) :
    ∀ (fuel : Nat) (gnodes stack : List String) (st : CBSt),
      ((stack = [] ∧ st.pred = []) ∨ ∃ root, CBInv ends root st.pred st.used stack) →
      (cbRun ends fuel gnodes stack st).cycles = st.cycles := by
  intro fuel
  induction fuel with
  | zero =>
      intro gnodes stack st _
      rfl
  | succ fuel ih =>
      intro gnodes stack st hhyp
      cases stack with
      | cons z rest =>
          rcases hhyp with ⟨hnil, -⟩ | ⟨root, hinv⟩
          · exact absurd hnil (List.cons_ne_nil z rest)
          · have hz := hinv.stack_dom z (List.mem_cons_self z rest)
            have hnd := List.nodup_cons.1 hinv.stack_nodup
            have hsub := adjOf_props ends z hsl
            have hnodup := adjOf_nodup ends z hwf
            have hnoz : ∀ n ∈ adjOf ends z, alookup st.pred n ≠ some z := by
              intro n hn hc
              exact (hsub n hn).2 (hinv.stack_target z (List.mem_cons_self z rest) n hc)
            have hzu : ∀ w, alookup st.pred z = some w → w ≠ z →
                w ∈ (alookup st.used z).getD [] := by
              intro w hw hwz
              obtain ⟨l, hl, hwl⟩ := hinv.pred_used z w hw (Ne.symm hwz)
              rw [hl]
              exact hwl
            have hinv1 : CBInv ends root st.pred st.used rest :=
              { align := hinv.align, pred_edge := hinv.pred_edge,
                self_root := hinv.self_root, pred_used := hinv.pred_used,
                pred_dom := hinv.pred_dom, reach := hinv.reach,
                stack_dom := fun s hs => hinv.stack_dom s (List.mem_cons_of_mem _ hs),
                stack_nodup := hnd.2,
                pred_not_stack := fun x y h hxy hc =>
                  hinv.pred_not_stack x y h hxy (List.mem_cons_of_mem _ hc),
                stack_target := fun s hs n hn =>
                  hinv.stack_target s (List.mem_cons_of_mem _ hs) n hn }
            obtain ⟨hcyc, hinv2⟩ := processNbrs_sound ends root z hacy
              ((alookup st.used z).getD []) (adjOf ends z) st rest hinv1 hz hnd.1 hsub
              hnodup hnoz hzu
            have hstep : cbRun ends (fuel + 1) gnodes (z :: rest) st =
                cbRun ends fuel gnodes
                  (processNbrs z ((alookup st.used z).getD []) (adjOf ends z) st rest).2
                  (processNbrs z ((alookup st.used z).getD []) (adjOf ends z) st rest).1 :=
              rfl
            rw [hstep, ih gnodes _ _ (Or.inr ⟨root, hinv2⟩)]
            exact hcyc
      | nil =>
          rcases hg : (gnodes.filter fun n => (alookup st.pred n).isNone).getLast? with _ | root
          · have hstep : cbRun ends (fuel + 1) gnodes [] st = st := by
              conv_lhs => unfold cbRun
              dsimp only
              rw [hg]
            rw [hstep]
          · have hinv0 : CBInv ends root [(root, root)] [(root, [])] [root] := by
              refine
                { align := ?_, pred_edge := ?_, self_root := ?_, pred_used := ?_,
                  pred_dom := ?_, reach := ?_, stack_dom := ?_, stack_nodup := ?_,
                  pred_not_stack := ?_, stack_target := ?_ }
              · intro x
                by_cases hx : root = x <;> simp [alookup, hx]
              · intro x y h
                by_cases hx : root = x
                · simp only [alookup, if_pos hx] at h
                  exact Or.inl (hx.symm.trans (Option.some_inj.1 h))
                · simp [alookup, hx] at h
              · intro x h
                by_cases hx : root = x
                · exact hx.symm
                · simp [alookup, hx] at h
              · intro x y h hxy
                by_cases hx : root = x
                · simp only [alookup, if_pos hx] at h
                  exact absurd (hx.symm.trans (Option.some_inj.1 h)) hxy
                · simp [alookup, hx] at h
              · intro x y h
                by_cases hx : root = x
                · simp only [alookup, if_pos hx] at h
                  have hy := Option.some_inj.1 h
                  simp [alookup, hy]
                · simp [alookup, hx] at h
              · intro x hx0
                by_cases hx : root = x
                · rw [← hx]
                · simp [alookup, hx] at hx0
              · intro s hs
                have hsr : s = root := by simpa using hs
                simp [alookup, hsr]
              · simp
              · intro x y h hxy
                by_cases hx : root = x
                · simp only [alookup, if_pos hx] at h
                  exact absurd (hx.symm.trans (Option.some_inj.1 h)) hxy
                · simp [alookup, hx] at h
              · intro s hs n hn
                have hsr : s = root := by simpa using hs
                by_cases hx : root = n
                · exact hx.symm.trans hsr.symm
                · simp [alookup, hx] at hn
            have hstep : cbRun ends (fuel + 1) gnodes [] st =
                cbRun ends fuel ((gnodes.filter fun n => (alookup st.pred n).isNone).dropLast)
                  [root] { pred := [(root, root)], used := [(root, [])], cycles := st.cycles } := by
              conv_lhs => unfold cbRun
              dsimp only
              rw [hg]
            rw [hstep, ih _ _ _ (Or.inr ⟨root, hinv0⟩)]

/-- An empty endpoint list spans a graph with no edge, hence no cycle. -/
theorem toSimple_nil_acyclic : (toSimple ([] : List (String × String))).IsAcyclic := by
  intro v c hc
  cases c with
  | nil => exact hc.ne_nil rfl
  | cons h p => rcases h.2 with hm | hm <;> cases hm

/-- C8: a 3-node ring (edges a-b, b-c, c-a, distinct names) yields exactly
one `NetworkLoop` issue containing all three nodes; an acyclic (tree) graph
yields no `NetworkLoop` issue; and in general the `NetworkLoop` issues of
`validate_topology` are exactly one issue per cycle of the cycle basis. -/
theorem C8_cycle_basis_loops :
    (∀ a b c : String, a ≠ b → a ≠ c → b ≠ c →
      validate_topology (ringOf a b c) = [Issue.networkLoop [b, a, c]]) ∧
    (∀ G : NXGraph, edgesWF G → noSelfLoops G → (toSimple (endsOf G)).IsAcyclic →
      (validate_topology G).filter isLoopIssue = []) ∧
    (∀ G : NXGraph, (validate_topology G).filter isLoopIssue =
      (cycle_basis G).map Issue.networkLoop) := by
  refine ⟨?_, ?_, ?_⟩
  · intro a b c hab hac hbc
    simp [validate_topology, dupIssues, vlanGroups, vlanEntries, vlanEntryOf, mtuIssues,
      gwIssues, loopIssues, cycle_basis, ringOf, ringAttr, NXGraph.edgesIter,
      NXGraph.edgesIterGo, NXGraph.neighborsA, NXGraph.nodeNames, NXGraph.parsedOf,
      _node_iface_mtu_to_neighbor, mtuDescScan, mtuSubnetScan, alookup, cbRun, processNbrs,
      adjOf, buildCycle, aaddUsed, hab, hac, hbc, Ne.symm hab, Ne.symm hac, Ne.symm hbc]
  · intro G hwf hsl hacy
    have h0 := cbRun_sound (endsOf G) hacy hsl hwf
      (2 * G.nodeList.length + 4 * G.edgeList.length + 2) G.nodeNames []
      { pred := [], used := [], cycles := [] } (Or.inl ⟨rfl, rfl⟩)
    have hcb : cycle_basis G = [] := by
      unfold cycle_basis
      exact h0
    rw [validate_filter_loop, loopIssues, hcb]
    rfl
  · intro G
    rw [validate_filter_loop]
    rfl

theorem C8_cycle_basis_loops_witness :
    ("A" : String) ≠ "B" ∧ ("A" : String) ≠ "C" ∧ ("B" : String) ≠ "C" ∧
    validate_topology (ringOf "A" "B" "C") = [Issue.networkLoop ["B", "A", "C"]] ∧
    edgesWF exEdgeless ∧ noSelfLoops exEdgeless ∧
    (validate_topology exEdgeless).filter isLoopIssue = [] :=
  ⟨by decide, by decide, by decide,
   C8_cycle_basis_loops.1 "A" "B" "C" (by decide) (by decide) (by decide),
   by decide, by decide,
   C8_cycle_basis_loops.2.1 exEdgeless (by decide) (by decide) toSimple_nil_acyclic⟩

end NetSim
